import Mathlib

/-!
Verification of the expense-tracker backend (`backend/server.js`).

The development shallowly embeds the CSV record codec (`parseCsvLine`,
`toCsvLine`), the store (`ensureCsv`, `loadAll`, `appendOne`) and the two
API routes (`GET /api/transactions`, `POST /api/transactions`) as pure Lean
functions, and proves the specification's claims about them.

Modelling conventions:
* JavaScript strings are modelled as `List Char` (`Str`).
* JavaScript numbers are modelled as `JSNum`: either the not-a-number
  sentinel `nan` or an exact rational.  The program performs no numeric
  arithmetic on amounts (only coercion, printing and parsing), so rational
  values model the machine doubles faithfully; every finite double is a
  rational whose denominator divides a power of ten (`DecRep` below).
* JavaScript field values (which may be absent) are modelled as `JSValue`:
  `undef`, `null`, booleans, numbers or strings.
* The `Number(·)` string-to-number coercion is modelled on optionally
  signed decimal literals (the only numeric strings this program's data
  exercises); `String(·)` on numbers is modelled as exact decimal printing.
* The filesystem is modelled as an `FS` record: whether the data directory
  exists and the optional contents of `transactions.csv`.
-/

/-- JavaScript strings are modelled as lists of characters. -/
abbrev Str := List Char

/-- Whitespace characters recognised by the modelled `trim()` and by the
whitespace-stripping of the `Number(·)` coercion. -/
def isWs (c : Char) : Bool :=
  c = ' ' || c = '\t' || c = '\n' || c = '\r'

/-- Model of JavaScript `String.prototype.trim` from the left. -/
def trimL (s : Str) : Str := s.dropWhile isWs

/-- Model of JavaScript `String.prototype.trim` from the right. -/
def trimR (s : Str) : Str := (s.reverse.dropWhile isWs).reverse

/-- Model of JavaScript `String.prototype.trim`. -/
def trim (s : Str) : Str := trimR (trimL s)

/-- Model of JavaScript `String.prototype.split` with a one-character
separator (the code splits on `','` and on `'\n'`). -/
def splitOnChar (c : Char) : Str → List Str
  | [] => [[]]
  | a :: as =>
    let r := splitOnChar c as
    if a = c then [] :: r else (a :: r.headD []) :: r.tail

/-- Model of `replace(/,/g, ' ')`: every delimiter character becomes a
single space. -/
def replaceComma (s : Str) : Str :=
  s.map (fun c => if c = ',' then ' ' else c)

/-- A JavaScript number: the not-a-number sentinel or an exact rational. -/
inductive JSNum where
  | nan : JSNum
  | fin : ℚ → JSNum
deriving DecidableEq

/-- A JavaScript value as it can appear in a JSON request body or in a
record field: absent/`undefined`, `null`, a boolean, a number or a
string. -/
inductive JSValue where
  | undef : JSValue
  | null : JSValue
  | bool : Bool → JSValue
  | num : JSNum → JSValue
  | str : Str → JSValue
deriving DecidableEq

/-- JavaScript truthiness: `undefined`, `null`, `false`, `0`, `NaN` and the
empty string are falsy, everything else is truthy. -/
def truthy : JSValue → Bool
  | .undef => false
  | .null => false
  | .bool b => b
  | .num .nan => false
  | .num (.fin q) => q != 0
  | .str s => !s.isEmpty

/-- Model of the JavaScript `??` (nullish-coalescing) operator. -/
def nullishD (v d : JSValue) : JSValue :=
  match v with
  | .undef => d
  | .null => d
  | _ => v

/-- Model of the JavaScript `||` operator on values (used for the
`payee || ''` and `notes || ''` defaults). -/
def jsOr (v d : JSValue) : JSValue :=
  if truthy v then v else d

/-- Numeric value of a decimal digit character. -/
def digitVal (c : Char) : Nat := c.toNat - 48

/-- Value of a big-endian list of decimal digit characters. -/
def digitsToNat (cs : Str) : Nat :=
  cs.foldl (fun n c => 10 * n + digitVal c) 0

/-- Value of the point-separated pieces of an unsigned decimal literal:
either plain digits, or an integer part and a fractional part (each
possibly empty, not both). -/
def parseParts : List Str → Option ℚ
  | [a] =>
    if a ≠ [] ∧ a.all Char.isDigit then some ((digitsToNat a : ℚ)) else none
  | [a, b] =>
    if (a ≠ [] ∨ b ≠ []) ∧ a.all Char.isDigit ∧ b.all Char.isDigit then
      some (mkRat (digitsToNat a * 10 ^ b.length + digitsToNat b) (10 ^ b.length))
    else none
  | _ => none

/-- Parse an unsigned decimal literal (digits with at most one point, at
least one digit overall), as accepted by the JavaScript `Number(·)`
coercion.  Returns `none` on any other input. -/
def parseDec (s : Str) : Option ℚ :=
  parseParts (splitOnChar '.' s)

/-- Parse an optionally signed decimal literal. -/
def parseSigned (s : Str) : Option ℚ :=
  match s with
  | [] => parseDec []
  | c :: rest =>
    if c = '-' then (parseDec rest).map (fun q => -q)
    else if c = '+' then parseDec rest
    else parseDec (c :: rest)

/-- Model of `Number(s)` for a string `s`: surrounding whitespace is
ignored, a whitespace-only string yields `0`, a signed decimal literal
yields its value and anything else yields `NaN`.  (The exotic `Number`
forms — hexadecimal, exponent notation, `Infinity` — are not exercised by
this program's data and are not modelled.) -/
def strToNum (s : Str) : JSNum :=
  let t := trim s
  if t = [] then .fin 0
  else
    match parseSigned t with
    | some q => .fin q
    | none => .nan

/-- Model of the JavaScript `Number(·)` coercion on all values:
`Number(undefined) = NaN`, `Number(null) = 0`, booleans map to `0`/`1`,
numbers are unchanged and strings are parsed. -/
def jsNumber : JSValue → JSNum
  | .undef => .nan
  | .null => .fin 0
  | .bool b => .fin (if b then 1 else 0)
  | .num n => n
  | .str s => strToNum s

example : strToNum "  -10.5 ".toList = .fin (mkRat (-21) 2) := by decide
example : strToNum "abc".toList = .nan := by decide
example : strToNum "".toList = .fin 0 := by decide
example : jsNumber (.str "0x10".toList) = .nan := by decide
example : jsNumber .null = .fin 0 := by decide

/-- Decimal digit character for a value below ten. -/
def digitChar : Nat → Char
  | 0 => '0' | 1 => '1' | 2 => '2' | 3 => '3' | 4 => '4'
  | 5 => '5' | 6 => '6' | 7 => '7' | 8 => '8' | _ => '9'

/-- Fuel-driven big-endian decimal digits of a natural number (the fuel
keeps the recursion structural, so proofs and kernel evaluation work). -/
def natToDigitsAux : Nat → Nat → Str
  | 0, _ => []
  | fuel + 1, n =>
    if n < 10 then [digitChar n]
    else natToDigitsAux fuel (n / 10) ++ [digitChar (n % 10)]

/-- Big-endian decimal digits of a natural number. -/
def natToDigits (n : Nat) : Str := natToDigitsAux (n + 1) n

/-- Smallest exponent `k ≤ den` with `den ∣ 10 ^ k`, or `0` if there is
none; for a denominator of a machine-representable number the search always
succeeds. -/
def decExp (den : Nat) : Nat :=
  match (List.range (den + 1)).find? (fun k => 10 ^ k % den = 0) with
  | some k => k
  | none => 0

/-- Pad a digit string with leading zeros until it has at least `k + 1`
digits (so that a decimal point can sit `k` digits from the right). -/
def padTo (k : Nat) (ds : Str) : Str :=
  if ds.length < k + 1 then List.replicate (k + 1 - ds.length) '0' ++ ds else ds

/-- Insert a decimal point `k` digits from the right (no point when
`k = 0`). -/
def withPoint (k : Nat) (ds : Str) : Str :=
  if k = 0 then ds else ds.take (ds.length - k) ++ '.' :: ds.drop (ds.length - k)

/-- Exact decimal printing of a rational, modelling JavaScript
`String(·)` on a finite number: minimal digits, a `.` only when needed,
a leading `-` for negative values.  (JavaScript's exponent notation for
magnitudes ≥ 1e21 or < 1e-6 is outside the range this program's data
exercises and is not modelled.) -/
def ratToDec (q : ℚ) : Str :=
  let k := decExp q.den
  let ds := padTo k (natToDigits (q.num.natAbs * 10 ^ k / q.den))
  if q.num < 0 then '-' :: withPoint k ds else withPoint k ds

/-- Model of JavaScript `String(·)` on a number. -/
def jsNumToString : JSNum → Str
  | .nan => "NaN".toList
  | .fin q => ratToDec q

/-- Model of JavaScript `String(·)` on a value. -/
def jsToString : JSValue → Str
  | .undef => "undefined".toList
  | .null => "null".toList
  | .bool b => if b then "true".toList else "false".toList
  | .num n => jsNumToString n
  | .str s => s

example : ratToDec (mkRat (-21) 2) = "-10.5".toList := by decide
example : ratToDec (mkRat 0 1) = "0".toList := by decide
example : ratToDec (mkRat 1 4) = "0.25".toList := by decide
example : ratToDec (mkRat 2 25) = "0.08".toList := by decide
example : ratToDec (mkRat 300 1) = "300".toList := by decide

/-- The transaction record: the JavaScript object `{id, date, category,
payee, amount, notes}` built by the create route and by `parseCsvLine`.
All fields except the numeric `amount` hold arbitrary JavaScript values
(a field destructured from a short CSV line is `undefined`). -/
structure Tx where
  id : JSValue
  date : JSValue
  category : JSValue
  payee : JSValue
  amount : JSNum
  notes : JSValue
deriving DecidableEq

/-- Positional field of a split line, `undefined` past the end, exactly as
JavaScript array destructuring produces it. -/
def fieldAt (ps : List Str) (i : Nat) : JSValue :=
  match ps.get? i with
  | some s => .str s
  | none => JSValue.undef

/-- Embedding of `parseCsvLine` (`server.js` lines 67-77): split the line
on `','`, take the first six positions, coerce `amount` with `Number(·)`
and default `notes` to the empty string via `??`. -/
def parseCsvLine (line : Str) : Tx :=
  let ps := splitOnChar ',' line
  { id := fieldAt ps 0
    date := fieldAt ps 1
    category := fieldAt ps 2
    payee := fieldAt ps 3
    amount := jsNumber (fieldAt ps 4)
    notes := nullishD (fieldAt ps 5) (.str []) }

/-- Embedding of the `safe` helper inside `toCsvLine` (`server.js` line
83): `String(s ?? '').replace(/,/g, ' ').trim()`. -/
def safe (v : JSValue) : Str :=
  trim (replaceComma (jsToString (nullishD v (.str []))))

/-- The amount as written by `toCsvLine`: `Number(rec.amount) || 0`, i.e.
`NaN` (and `0` itself) collapse to `0`. -/
def amountOrZero : JSNum → ℚ
  | .nan => 0
  | .fin q => q

/-- The six encoded fields of a record, in the fixed order
`id, date, category, payee, amount, notes`. -/
def toCsvFields (rec : Tx) : List Str :=
  [safe rec.id, safe rec.date, safe rec.category, safe rec.payee,
   ratToDec (amountOrZero rec.amount), safe rec.notes]

/-- The encoded line without its trailing newline. -/
def toCsvBody (rec : Tx) : Str :=
  List.intercalate [','] (toCsvFields rec)

/-- Embedding of `toCsvLine` (`server.js` lines 81-92): the six cleaned
fields joined with `','`, terminated by a newline. -/
def toCsvLine (rec : Tx) : Str :=
  toCsvBody rec ++ ['\n']

example :
    toCsvLine
      { id := .str "1".toList, date := .str "2025-10-02".toList,
        category := .str "Groceries".toList, payee := .str "Shop".toList,
        amount := .fin (mkRat (-2109) 50), notes := .str "a,b".toList } =
      "1,2025-10-02,Groceries,Shop,-42.18,a b\n".toList := by decide

/-- The header line written when the data file is created, without its
newline. -/
def headerBody : Str := "id,date,category,payee,amount,notes".toList

/-- The initial contents of a fresh data file (`server.js` line 54). -/
def csvHeader : Str := headerBody ++ ['\n']

/-- The filesystem as the program observes it: whether the data directory
exists and the contents of `transactions.csv`, if the file exists. -/
structure FS where
  dirExists : Bool
  file : Option Str
deriving DecidableEq

/-- Embedding of `ensureCsv` (`server.js` lines 45-56): create the data
directory if missing, then create the file with the header row if
missing. -/
def ensureCsv (fs : FS) : FS :=
  let fs1 : FS := if fs.dirExists then fs else { fs with dirExists := true }
  if fs1.file.isSome then fs1 else { fs1 with file := some csvHeader }

/-- Embedding of the pure part of `loadAll` (`server.js` lines 100-106):
trim the raw text, split into lines, drop the header line, drop blank
lines (`filter(Boolean)`), decode the rest in order. -/
def loadAllRaw (raw : Str) : List Tx :=
  ((splitOnChar '\n' (trim raw)).drop 1 |>.filter (fun l => !l.isEmpty)).map parseCsvLine

/-- Embedding of `appendOne` (`server.js` lines 110-112): append the
encoded line to the file (`appendFileSync` creates a missing file). -/
def appendOne (fs : FS) (rec : Tx) : FS :=
  { fs with file := some (fs.file.getD [] ++ toCsvLine rec) }

/-- The whole server state: the in-memory `transactions` array and the
filesystem. -/
structure ServerState where
  transactions : List Tx
  fs : FS
deriving DecidableEq

/-- Process start (`server.js` line 120): `let transactions = loadAll()`,
which first runs `ensureCsv`. -/
def startServer (fs0 : FS) : ServerState :=
  let fs1 := ensureCsv fs0
  { transactions := loadAllRaw (fs1.file.getD []), fs := fs1 }

/-- Embedding of the `GET /api/transactions` route (`server.js` lines
145-147): return the in-memory array unchanged. -/
def listTx (st : ServerState) : List Tx := st.transactions

/-- A create request body: the five destructured fields of `req.body`,
each possibly absent. -/
structure CreateReq where
  date : JSValue
  category : JSValue
  payee : JSValue
  amount : JSValue
  notes : JSValue
deriving DecidableEq

/-- Outcome of the create route: HTTP 200 with the created record, or
HTTP 400 with an error message. -/
inductive HttpResult where
  | ok : Tx → HttpResult
  | badRequest : Str → HttpResult
deriving DecidableEq

/-- Whether a result is the HTTP 400 validation failure. -/
def HttpResult.is400 : HttpResult → Bool
  | .ok _ => false
  | .badRequest _ => true

/-- Embedding of the `POST /api/transactions` route (`server.js` lines
152-191).  `gid` is the identifier produced by the generation expression on
line 171 (`crypto.randomUUID()` or `Date.now().toString()`), passed in as a
parameter because it is the route's only non-deterministic input.  Returns
the HTTP result together with the state after the request. -/
def createTx (gid : Str) (body : CreateReq) (st : ServerState) :
    HttpResult × ServerState :=
  if !truthy body.date || !truthy body.category || body.amount = JSValue.undef then
    (.badRequest "date, category, and amount are required".toList, st)
  else
    match jsNumber body.amount with
    | .nan => (.badRequest "amount must be a number".toList, st)
    | .fin q =>
      let tx : Tx :=
        { id := .str gid
          date := body.date
          category := body.category
          payee := jsOr body.payee (.str [])
          amount := .fin q
          notes := jsOr body.notes (.str []) }
      (.ok tx,
       { transactions := st.transactions ++ [tx], fs := appendOne st.fs tx })

/-- A sequence of create requests, each with its generated identifier,
processed in order (failed requests leave the state unchanged, exactly as
the route does). -/
def runCreates (reqs : List (Str × CreateReq)) (st : ServerState) : ServerState :=
  reqs.foldl (fun s gr => (createTx gr.1 gr.2 s).2) st

example :
    (startServer { dirExists := false, file := none }).transactions = [] := by decide
example :
    (createTx "7".toList
      { date := .str "2025-01-01".toList, category := .str "Food".toList,
        payee := .undef, amount := .num (.fin 0), notes := .undef }
      (startServer { dirExists := false, file := none })).1 =
    .ok { id := .str "7".toList, date := .str "2025-01-01".toList,
          category := .str "Food".toList, payee := .str [],
          amount := .fin 0, notes := .str [] } := by decide
example :
    (createTx "7".toList
      { date := .str "2025-01-01".toList, category := .str "Food".toList,
        payee := .undef, amount := .undef, notes := .undef }
      (startServer { dirExists := false, file := none })).1.is400 = true := by decide

theorem splitOnChar_cons (c a : Char) (as : Str) :
    splitOnChar c (a :: as) =
      if a = c then [] :: splitOnChar c as
      else (a :: (splitOnChar c as).headD []) :: (splitOnChar c as).tail := rfl

theorem splitOnChar_ne_nil (c : Char) (s : Str) : splitOnChar c s ≠ [] := by
  cases s with
  | nil => simp [splitOnChar]
  | cons a as =>
    rw [splitOnChar_cons]
    split <;> simp

theorem splitOnChar_sep_free (c : Char) (s : Str) (h : c ∉ s) :
    splitOnChar c s = [s] := by
  induction s with
  | nil => rfl
  | cons a as ih =>
    rw [splitOnChar_cons, if_neg (by intro hac; exact h (hac ▸ List.mem_cons_self a as)),
      ih (fun hm => h (List.mem_cons_of_mem a hm))]
    simp

theorem splitOnChar_append (c : Char) (xs ys : Str) :
    splitOnChar c (xs ++ c :: ys) = splitOnChar c xs ++ splitOnChar c ys := by
  induction xs with
  | nil => simp [splitOnChar_cons, splitOnChar]
  | cons a as ih =>
    rw [List.cons_append, splitOnChar_cons, splitOnChar_cons, ih]
    by_cases hac : a = c
    · simp [hac]
    · rw [if_neg hac, if_neg hac]
      obtain ⟨h1, t1, he⟩ := List.exists_cons_of_ne_nil (splitOnChar_ne_nil c as)
      rw [he]
      simp

theorem splitOnChar_intercalate (c : Char) (parts : List Str) (hne : parts ≠ [])
    (h : ∀ p ∈ parts, c ∉ p) :
    splitOnChar c (List.intercalate [c] parts) = parts := by
  induction parts with
  | nil => exact absurd rfl hne
  | cons p ps ih =>
    cases ps with
    | nil =>
      have : List.intercalate [c] [p] = p := by simp [List.intercalate]
      rw [this, splitOnChar_sep_free c p (h p (List.mem_cons_self p []))]
    | cons p1 ps1 =>
      have hstep : List.intercalate [c] (p :: p1 :: ps1) =
          p ++ c :: List.intercalate [c] (p1 :: ps1) := by
        simp [List.intercalate, List.intersperse]
      rw [hstep, splitOnChar_append,
        ih (by simp) (fun x hx => h x (List.mem_cons_of_mem p hx))]
      rw [splitOnChar_sep_free c p (h p (List.mem_cons_self p _))]
      rfl

theorem dropWhile_idem (p : Char → Bool) (s : Str) :
    (s.dropWhile p).dropWhile p = s.dropWhile p := by
  induction s with
  | nil => rfl
  | cons a as ih =>
    by_cases hp : p a = true
    · rw [List.dropWhile_cons, if_pos hp, ih]
    · rw [List.dropWhile_cons, if_neg hp, List.dropWhile_cons, if_neg hp]

theorem trimL_eq_self (s : Str) (h : isWs (s.headD 'x') = false) : trimL s = s := by
  cases s with
  | nil => rfl
  | cons a as =>
    simp only [List.headD_cons] at h
    rw [trimL, List.dropWhile_cons, if_neg (by simp [h])]

theorem trimR_eq_self (s : Str) (h : isWs (s.getLastD 'x') = false) : trimR s = s := by
  rcases List.eq_nil_or_concat s with hs | ⟨t, b, hs⟩
  · subst hs; rfl
  · subst hs
    rw [List.concat_eq_append] at h ⊢
    rw [trimR, List.reverse_append, List.reverse_singleton, List.singleton_append,
      List.dropWhile_cons,
      if_neg (by simp [List.getLastD_concat] at h; simp [h])]
    simp

theorem trim_eq_self (s : Str) (hh : isWs (s.headD 'x') = false)
    (hl : isWs (s.getLastD 'x') = false) : trim s = s := by
  rw [trim, trimL_eq_self s hh, trimR_eq_self s hl]

theorem trimL_length_eq (s : Str) (h : (trimL s).length = s.length) : trimL s = s := by
  cases s with
  | nil => rfl
  | cons a as =>
    by_cases hp : isWs a = true
    · exfalso
      rw [trimL, List.dropWhile_cons, if_pos hp] at h
      have := List.Sublist.length_le (List.dropWhile_sublist (l := as) isWs)
      simp at h
      omega
    · rw [trimL, List.dropWhile_cons, if_neg hp]

theorem trimL_length_le (s : Str) : (trimL s).length ≤ s.length :=
  List.Sublist.length_le (List.dropWhile_sublist isWs)

theorem trimR_length_le (s : Str) : (trimR s).length ≤ s.length := by
  rw [trimR]
  have := List.Sublist.length_le (List.dropWhile_sublist (l := s.reverse) isWs)
  simpa using this

theorem trim_parts_eq_self (s : Str) (h : trim s = s) : trimL s = s ∧ trimR s = s := by
  have h1 : (trimL s).length ≤ s.length := trimL_length_le s
  have h2 : (trim s).length ≤ (trimL s).length := trimR_length_le (trimL s)
  have hL : trimL s = s := trimL_length_eq s (by rw [h] at h2; omega)
  refine ⟨hL, ?_⟩
  rw [trim, hL] at h
  exact h

theorem head_not_ws_of_trim (s : Str) (h : trim s = s) : isWs (s.headD 'x') = false := by
  have hL := (trim_parts_eq_self s h).1
  cases s with
  | nil => rfl
  | cons a as =>
    simp only [List.headD_cons]
    by_contra hws
    simp only [Bool.not_eq_false] at hws
    rw [trimL, List.dropWhile_cons, if_pos hws] at hL
    have := List.Sublist.length_le (List.dropWhile_sublist (l := as) isWs)
    have hlen : (List.dropWhile isWs as).length = as.length + 1 := by rw [hL]; rfl
    omega

theorem last_not_ws_of_trim (s : Str) (h : trim s = s) : isWs (s.getLastD 'x') = false := by
  have hR := (trim_parts_eq_self s h).2
  rcases List.eq_nil_or_concat s with hs | ⟨t, b, hs⟩
  · subst hs; rfl
  · subst hs
    rw [List.concat_eq_append] at hR ⊢
    rw [List.getLastD_concat]
    by_contra hws
    simp only [Bool.not_eq_false] at hws
    rw [trimR, List.reverse_append, List.reverse_singleton, List.singleton_append,
      List.dropWhile_cons, if_pos hws] at hR
    have h1 := List.Sublist.length_le (List.dropWhile_sublist (l := t.reverse) isWs)
    have h2 : ((List.dropWhile isWs t.reverse).reverse).length = t.length + 1 := by
      rw [hR]; simp
    have h3 : t.reverse.length = t.length := by simp
    simp at h2
    omega

theorem headD_dropWhile_isWs (l : Str) :
    isWs ((l.dropWhile isWs).headD 'x') = false := by
  induction l with
  | nil => rfl
  | cons a as ih =>
    by_cases hp : isWs a = true
    · rw [List.dropWhile_cons, if_pos hp]; exact ih
    · rw [List.dropWhile_cons, if_neg hp, List.headD_cons]
      simpa using hp

theorem dropWhile_append_last (xs : Str) (b : Char) (h : isWs b = false) :
    ∃ t, List.dropWhile isWs (xs ++ [b]) = t ++ [b] := by
  induction xs with
  | nil => exact ⟨[], by simp [List.dropWhile_cons, h]⟩
  | cons a as ih =>
    by_cases hp : isWs a = true
    · rw [List.cons_append, List.dropWhile_cons, if_pos hp]; exact ih
    · exact ⟨a :: as, by rw [List.cons_append, List.dropWhile_cons, if_neg hp]⟩

theorem trimL_trimR (x : Str) (h : trimL x = x) : trimL (trimR x) = trimR x := by
  cases x with
  | nil => rfl
  | cons a as =>
    have ha : isWs a = false := by
      by_contra hws
      simp only [Bool.not_eq_false] at hws
      rw [trimL, List.dropWhile_cons, if_pos hws] at h
      have := List.Sublist.length_le (List.dropWhile_sublist (l := as) isWs)
      have hlen : (List.dropWhile isWs as).length = as.length + 1 := by rw [h]; rfl
      omega
    obtain ⟨t, ht⟩ := dropWhile_append_last as.reverse a ha
    have : trimR (a :: as) = a :: t.reverse := by
      rw [trimR, List.reverse_cons, ht]
      simp
    rw [this]
    exact trimL_eq_self _ (by simpa using ha)

theorem getLastD_trimR_not_ws (x : Str) : isWs ((trimR x).getLastD 'x') = false := by
  rw [trimR]
  rcases h : List.dropWhile isWs x.reverse with _ | ⟨a, as⟩
  · rfl
  · have : isWs ((List.dropWhile isWs x.reverse).headD 'x') = false :=
      headD_dropWhile_isWs x.reverse
    rw [h, List.headD_cons] at this
    rw [List.reverse_cons, List.getLastD_concat]
    exact this

theorem trimL_idem (s : Str) : trimL (trimL s) = trimL s := dropWhile_idem isWs s

theorem getLastD_trim_not_ws (s : Str) : isWs ((trim s).getLastD 'x') = false := by
  rw [trim]
  exact getLastD_trimR_not_ws (trimL s)

theorem trim_idem (s : Str) : trim (trim s) = trim s := by
  have h1 : trimL (trim s) = trim s := trimL_trimR (trimL s) (trimL_idem s)
  conv_lhs => rw [trim]
  rw [h1]
  exact trimR_eq_self _ (getLastD_trim_not_ws s)

theorem trimR_append_ws (xs : Str) (b : Char) (h : isWs b = true) :
    trimR (xs ++ [b]) = trimR xs := by
  rw [trimR, trimR, List.reverse_append, List.reverse_singleton, List.singleton_append,
    List.dropWhile_cons, if_pos h]

theorem digitVal_digitChar (n : Nat) (h : n < 10) : digitVal (digitChar n) = n := by
  interval_cases n <;> decide

theorem isDigit_digitChar (n : Nat) : (digitChar n).isDigit = true := by
  match n with
  | 0 | 1 | 2 | 3 | 4 | 5 | 6 | 7 | 8 => decide
  | _ + 9 => show ('9').isDigit = true; decide

theorem digitsToNat_foldl (a : Nat) (ys : Str) :
    ys.foldl (fun n c => 10 * n + digitVal c) a =
      a * 10 ^ ys.length + digitsToNat ys := by
  induction ys generalizing a with
  | nil => simp [digitsToNat]
  | cons c cs ih =>
    rw [List.foldl_cons, ih (10 * a + digitVal c)]
    have h2 : digitsToNat (c :: cs) = digitVal c * 10 ^ cs.length + digitsToNat cs := by
      rw [digitsToNat, List.foldl_cons]
      have h3 := ih (10 * 0 + digitVal c)
      simpa using h3
    rw [h2, List.length_cons, pow_succ]
    ring

theorem digitsToNat_append (xs ys : Str) :
    digitsToNat (xs ++ ys) = digitsToNat xs * 10 ^ ys.length + digitsToNat ys := by
  have h : digitsToNat (xs ++ ys) =
      ys.foldl (fun n c => 10 * n + digitVal c) (digitsToNat xs) := by
    rw [digitsToNat, List.foldl_append]; rfl
  rw [h, digitsToNat_foldl]

theorem digitsToNat_replicate_zero (z : Nat) (ds : Str) :
    digitsToNat (List.replicate z '0' ++ ds) = digitsToNat ds := by
  rw [digitsToNat_append]
  have h : digitsToNat (List.replicate z '0') = 0 := by
    induction z with
    | zero => rfl
    | succ m ih =>
      rw [List.replicate_succ, digitsToNat, List.foldl_cons]
      have h0 : (10 * 0 + digitVal '0') = 0 := rfl
      rw [h0]
      exact ih
  rw [h]
  simp

theorem natToDigitsAux_val (fuel n : Nat) (h : n < fuel) :
    digitsToNat (natToDigitsAux fuel n) = n := by
  induction fuel generalizing n with
  | zero => omega
  | succ f ih =>
    rw [natToDigitsAux]
    by_cases h10 : n < 10
    · rw [if_pos h10, digitsToNat, List.foldl_cons]
      simp [digitVal_digitChar n h10]
    · rw [if_neg h10, digitsToNat_append]
      have hd : n / 10 < f :=
        lt_of_lt_of_le (Nat.div_lt_self (by omega) (by omega)) (by omega)
      rw [ih (n / 10) hd]
      have hm : digitsToNat [digitChar (n % 10)] = n % 10 := by
        rw [digitsToNat, List.foldl_cons]
        simp [digitVal_digitChar _ (Nat.mod_lt n (by omega))]
      rw [hm, List.length_singleton, pow_one]
      have hdm := Nat.div_add_mod n 10
      omega

theorem natToDigits_val (n : Nat) : digitsToNat (natToDigits n) = n :=
  natToDigitsAux_val (n + 1) n (Nat.lt_succ_self n)

theorem natToDigitsAux_digits (fuel n : Nat) :
    ∀ c ∈ natToDigitsAux fuel n, c.isDigit = true := by
  induction fuel generalizing n with
  | zero => intro c hc; simp [natToDigitsAux] at hc
  | succ f ih =>
    intro c hc
    rw [natToDigitsAux] at hc
    by_cases h10 : n < 10
    · rw [if_pos h10] at hc
      simp only [List.mem_singleton] at hc
      subst hc
      exact isDigit_digitChar n
    · rw [if_neg h10] at hc
      rcases List.mem_append.mp hc with hm | hm
      · exact ih (n / 10) c hm
      · simp only [List.mem_singleton] at hm
        subst hm
        exact isDigit_digitChar _

theorem natToDigits_digits (n : Nat) : ∀ c ∈ natToDigits n, c.isDigit = true :=
  natToDigitsAux_digits (n + 1) n

theorem natToDigits_ne_nil (n : Nat) : natToDigits n ≠ [] := by
  rw [natToDigits, natToDigitsAux]
  split <;> simp

theorem not_ws_of_isDigit (c : Char) (h : c.isDigit = true) : isWs c = false := by
  by_contra hws
  simp only [Bool.not_eq_false, isWs, Bool.or_eq_true, decide_eq_true_eq] at hws
  rcases hws with ((rfl | rfl) | rfl) | rfl <;> exact absurd h (by decide)

theorem isDigit_ne_comma (c : Char) (h : c.isDigit = true) : c ≠ ',' := by
  rintro rfl; exact absurd h (by decide)

theorem isDigit_ne_dot (c : Char) (h : c.isDigit = true) : c ≠ '.' := by
  rintro rfl; exact absurd h (by decide)

theorem isDigit_ne_nl (c : Char) (h : c.isDigit = true) : c ≠ '\n' := by
  rintro rfl; exact absurd h (by decide)

/-- A rational is machine-decimal-representable when its denominator
divides a power of ten; every finite IEEE double satisfies this (its
denominator is a power of two). -/
def DecRep (q : ℚ) : Prop := (q.den : ℕ) ∣ 10 ^ q.den

instance (q : ℚ) : Decidable (DecRep q) := by
  rw [DecRep]
  infer_instance

theorem dvd_ten_pow (j d : Nat) (h : d ∣ 10 ^ j) : d ∣ 10 ^ d := by
  induction d using Nat.strong_induction_on with
  | _ d ih =>
    by_cases h1 : d = 1
    · subst h1; exact one_dvd _
    by_cases h0 : d = 0
    · subst h0
      exact absurd (Nat.eq_zero_of_zero_dvd h)
        (pow_ne_zero j (by norm_num : (10 : ℕ) ≠ 0))
    obtain ⟨p, hp, hpd⟩ := Nat.exists_prime_and_dvd h1
    have hp10 : p ∣ 10 := hp.dvd_of_dvd_pow (dvd_trans hpd h)
    have hdp_lt : d / p < d := Nat.div_lt_self (Nat.pos_of_ne_zero h0) hp.one_lt
    have ihres : d / p ∣ 10 ^ (d / p) :=
      ih (d / p) hdp_lt (dvd_trans (Nat.div_dvd_of_dvd hpd) h)
    have hple : 2 ≤ p := hp.two_le
    have hle : d / p ≤ d - 1 := by
      have h2le : d / p ≤ d / 2 := Nat.div_le_div_left hple (by norm_num)
      omega
    have h2 : d / p ∣ 10 ^ (d - 1) := dvd_trans ihres (pow_dvd_pow 10 hle)
    have h4 : p * (d / p) ∣ 10 * 10 ^ (d - 1) := mul_dvd_mul hp10 h2
    have h5 : 10 * 10 ^ (d - 1) = 10 ^ d := by
      rw [← pow_succ']
      congr 1
      omega
    have h3 : p * (d / p) = d := Nat.mul_div_cancel' hpd
    have h6 : d ∣ 10 * 10 ^ (d - 1) := by
      calc d = p * (d / p) := h3.symm
        _ ∣ 10 * 10 ^ (d - 1) := h4
    exact h5 ▸ h6

theorem decExp_dvd (den : Nat) (h : den ∣ 10 ^ den) : den ∣ 10 ^ decExp den := by
  rw [decExp]
  rcases hf : (List.range (den + 1)).find? (fun k => 10 ^ k % den = 0) with _ | k
  · exfalso
    have hpos : 0 < den := by
      rcases Nat.eq_zero_or_pos den with rfl | hp
      · exact absurd (Nat.eq_zero_of_zero_dvd h) (by norm_num)
      · exact hp
    have hall := List.find?_eq_none.mp hf den (List.mem_range.mpr (Nat.lt_succ_self den))
    simp only [decide_eq_true_eq] at hall
    exact hall (Nat.dvd_iff_mod_eq_zero.mp h)
  · have hk := List.find?_some hf
    simp only [decide_eq_true_eq] at hk
    exact Nat.dvd_of_mod_eq_zero hk

theorem decRep_intCast (n : ℤ) : DecRep (n : ℚ) := by
  rw [DecRep, Rat.den_intCast]
  exact one_dvd _

theorem decRep_zero : DecRep (0 : ℚ) := by
  have h := decRep_intCast 0
  rwa [Int.cast_zero] at h

theorem decRep_one : DecRep (1 : ℚ) := by
  have h := decRep_intCast 1
  rwa [Int.cast_one] at h

theorem decRep_natCast (n : ℕ) : DecRep (n : ℚ) := by
  have h := decRep_intCast (n : ℤ)
  rwa [Int.cast_natCast] at h

theorem decRep_neg (q : ℚ) (h : DecRep q) : DecRep (-q) := by
  rw [DecRep, Rat.neg_den]
  exact h

theorem decRep_mkRat_pow (m : ℤ) (k : Nat) : DecRep (mkRat m (10 ^ k)) := by
  have h1 : ((mkRat m (10 ^ k)).den : ℤ) ∣ ((10 ^ k : ℕ) : ℤ) := by
    rw [Rat.mkRat_eq_divInt]
    have := Rat.den_dvd m ((10 ^ k : ℕ) : ℤ)
    simpa using this
  have h2 : (mkRat m (10 ^ k)).den ∣ 10 ^ k := Int.ofNat_dvd.mp h1
  exact dvd_ten_pow k _ h2

theorem trim_eq_self_of_all (s : Str) (h : ∀ c ∈ s, isWs c = false) : trim s = s := by
  apply trim_eq_self
  · cases s with
    | nil => rfl
    | cons a as =>
      simp only [List.headD_cons]
      exact h a (List.mem_cons_self a as)
  · rcases List.eq_nil_or_concat s with rfl | ⟨t, b, hs⟩
    · rfl
    · subst hs
      rw [List.concat_eq_append, List.getLastD_concat]
      exact h b (by simp)

theorem parseDec_print (k : Nat) (ds : Str) (hne : ds ≠ [])
    (hdig : ∀ c ∈ ds, c.isDigit = true) (hlen : k + 1 ≤ ds.length) :
    parseDec (withPoint k ds) = some (mkRat (digitsToNat ds) (10 ^ k)) := by
  simp only [withPoint]
  by_cases hk : k = 0
  · subst hk
    rw [if_pos rfl, parseDec,
      splitOnChar_sep_free '.' ds (fun hm => isDigit_ne_dot _ (hdig _ hm) rfl),
      parseParts]
    rw [if_pos ⟨hne, List.all_eq_true.mpr hdig⟩]
    rw [pow_zero, Rat.mkRat_one]
    norm_cast
  · rw [if_neg hk, parseDec]
    have htds : ds.take (ds.length - k) ++ ds.drop (ds.length - k) = ds :=
      List.take_append_drop _ ds
    have hdt : ∀ c ∈ ds.take (ds.length - k), c.isDigit = true :=
      fun c hc => hdig c (List.take_subset _ _ hc)
    have hdd : ∀ c ∈ ds.drop (ds.length - k), c.isDigit = true :=
      fun c hc => hdig c (List.drop_subset _ _ hc)
    have hsplit : splitOnChar '.' (ds.take (ds.length - k) ++ '.' :: ds.drop (ds.length - k)) =
        [ds.take (ds.length - k), ds.drop (ds.length - k)] := by
      rw [splitOnChar_append,
        splitOnChar_sep_free '.' _ (fun hm => isDigit_ne_dot _ (hdt _ hm) rfl),
        splitOnChar_sep_free '.' _ (fun hm => isDigit_ne_dot _ (hdd _ hm) rfl)]
      rfl
    rw [hsplit, parseParts]
    have htne : ds.take (ds.length - k) ≠ [] := by
      intro hnil
      have := congrArg List.length hnil
      rw [List.length_take] at this
      simp only [List.length_nil] at this
      omega
    rw [if_pos ⟨Or.inl htne, List.all_eq_true.mpr hdt, List.all_eq_true.mpr hdd⟩]
    have hdl : (ds.drop (ds.length - k)).length = k := by
      rw [List.length_drop]
      omega
    rw [hdl]
    congr 1
    have hv : digitsToNat (ds.take (ds.length - k) ++ ds.drop (ds.length - k)) =
        digitsToNat (ds.take (ds.length - k)) * 10 ^ k +
          digitsToNat (ds.drop (ds.length - k)) := by
      rw [digitsToNat_append, hdl]
    rw [htds] at hv
    rw [hv]
    push_cast
    ring

theorem isDigit_ne_minus (c : Char) (h : c.isDigit = true) : c ≠ '-' := by
  rintro rfl; exact absurd h (by decide)

theorem isDigit_ne_plus (c : Char) (h : c.isDigit = true) : c ≠ '+' := by
  rintro rfl; exact absurd h (by decide)

theorem padTo_digits (k : Nat) (ds : Str) (h : ∀ c ∈ ds, c.isDigit = true) :
    ∀ c ∈ padTo k ds, c.isDigit = true := by
  rw [padTo]
  split
  · intro c hc
    rcases List.mem_append.mp hc with hm | hm
    · rw [List.eq_of_mem_replicate hm]; decide
    · exact h c hm
  · exact h

theorem padTo_val (k : Nat) (ds : Str) : digitsToNat (padTo k ds) = digitsToNat ds := by
  rw [padTo]
  split
  · exact digitsToNat_replicate_zero _ _
  · rfl

theorem padTo_len (k : Nat) (ds : Str) : k + 1 ≤ (padTo k ds).length ∨ padTo k ds = ds := by
  rw [padTo]
  split
  · left
    rw [List.length_append, List.length_replicate]
    omega
  · right; rfl

theorem padTo_length (k : Nat) (ds : Str) (h : ds ≠ []) : k + 1 ≤ (padTo k ds).length := by
  rcases padTo_len k ds with hl | he
  · exact hl
  · rw [he]
    have : 0 < ds.length := List.length_pos.mpr h
    rw [padTo] at he
    by_cases hc : ds.length < k + 1
    · rw [if_pos hc] at he
      have := congrArg List.length he
      rw [List.length_append, List.length_replicate] at this
      omega
    · omega

theorem padTo_ne_nil (k : Nat) (ds : Str) (h : ds ≠ []) : padTo k ds ≠ [] := by
  intro hnil
  have := padTo_length k ds h
  rw [hnil] at this
  simp at this

theorem withPoint_chars (k : Nat) (ds : Str) (h : ∀ c ∈ ds, c.isDigit = true) :
    ∀ c ∈ withPoint k ds, c.isDigit = true ∨ c = '.' := by
  rw [withPoint]
  split
  · exact fun c hc => Or.inl (h c hc)
  · intro c hc
    rcases List.mem_append.mp hc with hm | hm
    · exact Or.inl (h c (List.take_subset _ _ hm))
    · rcases List.mem_cons.mp hm with rfl | hm2
      · exact Or.inr rfl
      · exact Or.inl (h c (List.drop_subset _ _ hm2))

theorem withPoint_ne_nil (k : Nat) (ds : Str) (h : ds ≠ []) : withPoint k ds ≠ [] := by
  rw [withPoint]
  split
  · exact h
  · intro hnil
    rcases List.append_eq_nil.mp hnil with ⟨-, h2⟩
    exact List.cons_ne_nil _ _ h2

theorem strToNum_of_parseSigned (s : Str) (v : ℚ) (hws : ∀ c ∈ s, isWs c = false)
    (hne : s ≠ []) (hps : parseSigned s = some v) : strToNum s = .fin v := by
  simp only [strToNum]
  rw [trim_eq_self_of_all s hws, if_neg hne, hps]

theorem withPoint_ws (k : Nat) (ds : Str) (h : ∀ c ∈ ds, c.isDigit = true) :
    ∀ c ∈ withPoint k ds, isWs c = false := by
  intro c hc
  rcases withPoint_chars k ds h c hc with hd | rfl
  · exact not_ws_of_isDigit c hd
  · decide

theorem parseSigned_unsigned (s : Str) (hne : s ≠ [])
    (hh : (s.headD 'x').isDigit = true ∨ s.headD 'x' = '.') :
    parseSigned s = parseDec s := by
  obtain ⟨c0, rest, hb⟩ := List.exists_cons_of_ne_nil hne
  subst hb
  simp only [List.headD_cons] at hh
  have hm : ¬ c0 = '-' := by
    rcases hh with hd | rfl
    · exact isDigit_ne_minus c0 hd
    · decide
  have hp : ¬ c0 = '+' := by
    rcases hh with hd | rfl
    · exact isDigit_ne_plus c0 hd
    · decide
  simp only [parseSigned]
  rw [if_neg hm, if_neg hp]

theorem strToNum_print_pos (k : Nat) (ds : Str) (hne : ds ≠ [])
    (hdig : ∀ c ∈ ds, c.isDigit = true) (hlen : k + 1 ≤ ds.length) :
    strToNum (withPoint k ds) = .fin (mkRat (digitsToNat ds) (10 ^ k)) := by
  have hwne := withPoint_ne_nil k ds hne
  apply strToNum_of_parseSigned _ _ (withPoint_ws k ds hdig) hwne
  rw [parseSigned_unsigned _ hwne ?_, parseDec_print k ds hne hdig hlen]
  obtain ⟨c0, rest, hb⟩ := List.exists_cons_of_ne_nil hwne
  have := withPoint_chars k ds hdig c0 (hb ▸ List.mem_cons_self _ _)
  rw [hb, List.headD_cons]
  exact this

theorem strToNum_print_neg (k : Nat) (ds : Str) (hne : ds ≠ [])
    (hdig : ∀ c ∈ ds, c.isDigit = true) (hlen : k + 1 ≤ ds.length) :
    strToNum ('-' :: withPoint k ds) = .fin (-(mkRat (digitsToNat ds) (10 ^ k))) := by
  apply strToNum_of_parseSigned
  · intro c hc
    rcases List.mem_cons.mp hc with rfl | hm
    · decide
    · exact withPoint_ws k ds hdig c hm
  · exact List.cons_ne_nil _ _
  · simp only [parseSigned]
    rw [if_pos trivial, parseDec_print k ds hne hdig hlen]
    rfl

theorem mkRat_scaled (q : ℚ) (k : Nat) (A : Nat) (hA : A * q.den = q.num.natAbs * 10 ^ k) :
    (mkRat (A : ℤ) (10 ^ k) : ℚ) = if q.num < 0 then -q else q := by
  have hden0 : (q.den : ℚ) ≠ 0 := by exact_mod_cast q.den_pos.ne'
  have h10 : ((10 : ℚ)) ^ k ≠ 0 := pow_ne_zero k (by norm_num)
  have hcast : (A : ℚ) * (q.den : ℚ) = (q.num.natAbs : ℚ) * (10 : ℚ) ^ k := by
    exact_mod_cast congrArg (fun x : ℕ => (x : ℚ)) hA
  have hnum : (q.num : ℚ) = q * (q.den : ℚ) := (div_eq_iff hden0).mp (Rat.num_div_den q)
  rw [Rat.mkRat_eq_div]
  push_cast
  rw [div_eq_iff h10]
  have habs : ((q.num.natAbs : ℕ) : ℚ) = |(q.num : ℚ)| := by
    rw [Int.cast_natAbs, Int.cast_abs]
  by_cases hneg : q.num < 0
  · rw [if_pos hneg]
    apply mul_right_cancel₀ hden0
    rw [hcast, habs, abs_of_neg (by exact_mod_cast hneg : (q.num : ℚ) < 0), hnum]
    ring
  · rw [if_neg hneg]
    apply mul_right_cancel₀ hden0
    have hnn : (0 : ℚ) ≤ (q.num : ℚ) := by exact_mod_cast Int.not_lt.mp hneg
    rw [hcast, habs, abs_of_nonneg hnn, hnum]
    ring

theorem strToNum_ratToDec (q : ℚ) (h : DecRep q) : strToNum (ratToDec q) = .fin q := by
  have hkdvd : (q.den : ℕ) ∣ 10 ^ decExp q.den := decExp_dvd q.den h
  have hA : (q.num.natAbs * 10 ^ decExp q.den / q.den) * q.den =
      q.num.natAbs * 10 ^ decExp q.den :=
    Nat.div_mul_cancel (hkdvd.mul_left _)
  have hval := mkRat_scaled q (decExp q.den) _ hA
  have hndig := natToDigits_digits (q.num.natAbs * 10 ^ decExp q.den / q.den)
  have hnne := natToDigits_ne_nil (q.num.natAbs * 10 ^ decExp q.den / q.den)
  have hdig := padTo_digits (decExp q.den) _ hndig
  have hne := padTo_ne_nil (decExp q.den) _ hnne
  have hlen := padTo_length (decExp q.den) _ hnne
  have hdval : digitsToNat
      (padTo (decExp q.den) (natToDigits (q.num.natAbs * 10 ^ decExp q.den / q.den))) =
      q.num.natAbs * 10 ^ decExp q.den / q.den := by
    rw [padTo_val, natToDigits_val]
  simp only [ratToDec]
  by_cases hneg : q.num < 0
  · rw [if_pos hneg, strToNum_print_neg _ _ hne hdig hlen, hdval]
    rw [if_pos hneg] at hval
    rw [hval, neg_neg]
  · rw [if_neg hneg, strToNum_print_pos _ _ hne hdig hlen, hdval]
    rw [if_neg hneg] at hval
    rw [hval]

theorem parseParts_decRep (ps : List Str) (q : ℚ) (h : parseParts ps = some q) :
    DecRep q := by
  match ps with
  | [] => exact absurd h (by simp [parseParts])
  | [a] =>
    rw [parseParts] at h
    split at h
    · have hq : ((digitsToNat a : ℚ)) = q := Option.some.inj h
      rw [← hq]
      exact decRep_natCast _
    · exact absurd h (by simp)
  | [a, b] =>
    rw [parseParts] at h
    split at h
    · have hq := Option.some.inj h
      rw [← hq]
      exact decRep_mkRat_pow _ _
    · exact absurd h (by simp)
  | _ :: _ :: _ :: _ => exact absurd h (by simp [parseParts])

theorem parseDec_decRep (s : Str) (q : ℚ) (h : parseDec s = some q) : DecRep q :=
  parseParts_decRep (splitOnChar '.' s) q h

theorem parseSigned_decRep (s : Str) (q : ℚ) (h : parseSigned s = some q) : DecRep q := by
  match s with
  | [] => exact parseDec_decRep [] q h
  | c :: rest =>
    simp only [parseSigned] at h
    by_cases hm : c = '-'
    · rw [if_pos hm] at h
      rcases hps : parseDec rest with _ | q0
      · rw [hps] at h; exact absurd h (by simp)
      · rw [hps] at h
        have := Option.some.inj h
        rw [← this]
        exact decRep_neg _ (parseDec_decRep rest q0 hps)
    · rw [if_neg hm] at h
      by_cases hp : c = '+'
      · rw [if_pos hp] at h
        exact parseDec_decRep rest q h
      · rw [if_neg hp] at h
        exact parseDec_decRep (c :: rest) q h

theorem strToNum_decRep (s : Str) (q : ℚ) (h : strToNum s = .fin q) : DecRep q := by
  simp only [strToNum] at h
  split at h
  · have := JSNum.fin.inj h
    rw [← this]
    exact decRep_zero
  · rcases hps : parseSigned (trim s) with _ | q0
    · rw [hps] at h
      exact absurd h (by simp)
    · rw [hps] at h
      have := JSNum.fin.inj h
      rw [← this]
      exact parseSigned_decRep _ q0 hps

theorem jsNumber_decRep (v : JSValue) (q : ℚ) (h : jsNumber v = .fin q)
    (hv : ∀ q0 : ℚ, v = .num (.fin q0) → DecRep q0) : DecRep q := by
  match v with
  | .undef => exact absurd h (by simp [jsNumber])
  | .null =>
    have := JSNum.fin.inj h
    rw [← this]
    exact decRep_zero
  | .bool b =>
    have := JSNum.fin.inj h
    rw [← this]
    cases b
    · exact decRep_zero
    · exact decRep_one
  | .num n => exact hv q (by rw [show n = JSNum.fin q from h])
  | .str s => exact strToNum_decRep s q h

theorem replaceComma_eq_self (s : Str) (h : ',' ∉ s) : replaceComma s = s := by
  induction s with
  | nil => rfl
  | cons a as ih =>
    rw [replaceComma, List.map_cons,
      if_neg (fun hac : a = ',' => h (hac ▸ List.mem_cons_self a as))]
    have := ih (fun hm => h (List.mem_cons_of_mem a hm))
    rw [replaceComma] at this
    rw [this]

theorem comma_not_mem_replaceComma (s : Str) : ',' ∉ replaceComma s := by
  rw [replaceComma]
  intro hm
  obtain ⟨c, hc, he⟩ := List.mem_map.mp hm
  by_cases hcc : c = ','
  · rw [if_pos hcc] at he
    exact absurd he (by decide)
  · rw [if_neg hcc] at he
    exact hcc he

theorem mem_trimR (x : Str) (c : Char) (h : c ∈ trimR x) : c ∈ x := by
  rw [trimR] at h
  rw [List.mem_reverse] at h
  have := (List.dropWhile_sublist (l := x.reverse) isWs).subset h
  rwa [List.mem_reverse] at this

theorem mem_trim (s : Str) (c : Char) (h : c ∈ trim s) : c ∈ s := by
  rw [trim] at h
  have h1 := mem_trimR (trimL s) c h
  rw [trimL] at h1
  exact (List.dropWhile_sublist isWs).subset h1

theorem comma_not_mem_safe (v : JSValue) : ',' ∉ safe v := by
  rw [safe]
  intro hm
  exact comma_not_mem_replaceComma _ (mem_trim _ ',' hm)

theorem trim_safe (v : JSValue) : trim (safe v) = safe v := by
  rw [safe]
  exact trim_idem _

theorem safe_str_clean (s : Str) (h1 : ',' ∉ s) (h2 : trim s = s) :
    safe (.str s) = s := by
  have hns : nullishD (.str s) (.str []) = .str s := rfl
  rw [safe, hns]
  have hjs : jsToString (.str s) = s := rfl
  rw [hjs, replaceComma_eq_self s h1, h2]

theorem ratToDec_chars (q : ℚ) :
    ∀ c ∈ ratToDec q, c.isDigit = true ∨ c = '.' ∨ c = '-' := by
  simp only [ratToDec]
  intro c hc
  have hdig := padTo_digits (decExp q.den) _
    (natToDigits_digits (q.num.natAbs * 10 ^ decExp q.den / q.den))
  by_cases hneg : q.num < 0
  · rw [if_pos hneg] at hc
    rcases List.mem_cons.mp hc with rfl | hm
    · right; right; rfl
    · rcases withPoint_chars _ _ hdig c hm with hd | rfl
      · left; exact hd
      · right; left; rfl
  · rw [if_neg hneg] at hc
    rcases withPoint_chars _ _ hdig c hc with hd | rfl
    · left; exact hd
    · right; left; rfl

theorem comma_not_mem_ratToDec (q : ℚ) : ',' ∉ ratToDec q := by
  intro hm
  rcases ratToDec_chars q ',' hm with hd | hd | hd
  · exact absurd hd (by decide)
  · exact absurd hd (by decide)
  · exact absurd hd (by decide)

theorem nl_not_mem_ratToDec (q : ℚ) : '\n' ∉ ratToDec q := by
  intro hm
  rcases ratToDec_chars q '\n' hm with hd | hd | hd
  · exact absurd hd (by decide)
  · exact absurd hd (by decide)
  · exact absurd hd (by decide)

theorem trim_ratToDec (q : ℚ) : trim (ratToDec q) = ratToDec q := by
  apply trim_eq_self_of_all
  intro c hc
  rcases ratToDec_chars q c hc with hd | rfl | rfl
  · exact not_ws_of_isDigit c hd
  · decide
  · decide

theorem ratToDec_ne_nil (q : ℚ) : ratToDec q ≠ [] := by
  simp only [ratToDec]
  have hne := withPoint_ne_nil (decExp q.den)
    (padTo (decExp q.den) (natToDigits (q.num.natAbs * 10 ^ decExp q.den / q.den)))
    (padTo_ne_nil _ _ (natToDigits_ne_nil _))
  by_cases hneg : q.num < 0
  · rw [if_pos hneg]
    exact List.cons_ne_nil _ _
  · rw [if_neg hneg]
    exact hne

/-- A string the codec transports verbatim inside a line: delimiter-free
and fixed by `trim`. -/
def cleanField (s : Str) : Prop := ',' ∉ s ∧ trim s = s

instance (s : Str) : Decidable (cleanField s) := by
  rw [cleanField]
  infer_instance

theorem toCsvFields_length (rec : Tx) : (toCsvFields rec).length = 6 := rfl

theorem toCsvFields_comma (rec : Tx) : ∀ f ∈ toCsvFields rec, ',' ∉ f := by
  intro f hf
  simp only [toCsvFields, List.mem_cons, List.not_mem_nil, or_false] at hf
  rcases hf with rfl | rfl | rfl | rfl | rfl | rfl
  · exact comma_not_mem_safe _
  · exact comma_not_mem_safe _
  · exact comma_not_mem_safe _
  · exact comma_not_mem_safe _
  · exact comma_not_mem_ratToDec _
  · exact comma_not_mem_safe _

theorem toCsvFields_trim (rec : Tx) : ∀ f ∈ toCsvFields rec, trim f = f := by
  intro f hf
  simp only [toCsvFields, List.mem_cons, List.not_mem_nil, or_false] at hf
  rcases hf with rfl | rfl | rfl | rfl | rfl | rfl
  · exact trim_safe _
  · exact trim_safe _
  · exact trim_safe _
  · exact trim_safe _
  · exact trim_ratToDec _
  · exact trim_safe _

theorem splitOnChar_toCsvBody (rec : Tx) :
    splitOnChar ',' (toCsvBody rec) = toCsvFields rec := by
  rw [toCsvBody]
  apply splitOnChar_intercalate
  · rw [toCsvFields]
    simp
  · exact toCsvFields_comma rec

theorem parseCsvLine_toCsvBody (i d c p n : Str) (q : ℚ)
    (hi : cleanField i) (hd : cleanField d) (hc : cleanField c)
    (hp : cleanField p) (hn : cleanField n) (hq : DecRep q) :
    parseCsvLine (toCsvBody
      { id := .str i, date := .str d, category := .str c, payee := .str p,
        amount := .fin q, notes := .str n }) =
      { id := .str i, date := .str d, category := .str c, payee := .str p,
        amount := .fin q, notes := .str n } := by
  have hsplit := splitOnChar_toCsvBody
    { id := JSValue.str i, date := .str d, category := .str c, payee := .str p,
      amount := JSNum.fin q, notes := .str n }
  simp only [parseCsvLine]
  rw [hsplit]
  simp only [toCsvFields]
  rw [safe_str_clean i hi.1 hi.2, safe_str_clean d hd.1 hd.2,
    safe_str_clean c hc.1 hc.2, safe_str_clean p hp.1 hp.2,
    safe_str_clean n hn.1 hn.2]
  have hamt : amountOrZero (JSNum.fin q) = q := rfl
  rw [hamt]
  simp only [fieldAt, List.get?]
  have hfin : jsNumber (JSValue.str (ratToDec q)) = JSNum.fin q := strToNum_ratToDec q hq
  rw [hfin]
  rfl

/-- A well-formed data-file line: no embedded newline, fixed by `trim`. -/
def lineWF (l : Str) : Prop := '\n' ∉ l ∧ trim l = l

instance (l : Str) : Decidable (lineWF l) := by
  rw [lineWF]
  infer_instance

theorem intercalate_cons (sep x : Str) (parts : List Str) (h : parts ≠ []) :
    List.intercalate sep (x :: parts) = x ++ sep ++ List.intercalate sep parts := by
  obtain ⟨y, zs, rfl⟩ := List.exists_cons_of_ne_nil h
  simp [List.intercalate, List.intersperse]

theorem intercalate_concat_last (sep : Str) (parts : List Str) (t : Str) (b : Char) :
    ∃ s, List.intercalate sep (parts ++ [t ++ [b]]) = s ++ [b] := by
  induction parts with
  | nil => exact ⟨t, by simp [List.intercalate]⟩
  | cons p ps ih =>
    obtain ⟨s, hs⟩ := ih
    have hcc : List.intercalate sep (p :: (ps ++ [t ++ [b]])) =
        p ++ sep ++ List.intercalate sep (ps ++ [t ++ [b]]) :=
      intercalate_cons sep p _ (by simp)
    rw [List.cons_append, hcc, hs]
    exact ⟨p ++ sep ++ s, by simp⟩

theorem mem_intercalate (sep : Str) (parts : List Str) (c : Char)
    (h : c ∈ List.intercalate sep parts) : c ∈ sep ∨ ∃ p ∈ parts, c ∈ p := by
  induction parts with
  | nil => simp [List.intercalate] at h
  | cons p ps ih =>
    cases ps with
    | nil =>
      right
      refine ⟨p, by simp, ?_⟩
      simpa [List.intercalate] using h
    | cons p2 ps2 =>
      rw [intercalate_cons sep p _ (by simp)] at h
      rcases List.mem_append.mp h with hm | hm
      · rcases List.mem_append.mp hm with hm2 | hm2
        · exact Or.inr ⟨p, by simp, hm2⟩
        · exact Or.inl hm2
      · rcases ih hm with hs | ⟨p3, hp3, hc3⟩
        · exact Or.inl hs
        · exact Or.inr ⟨p3, List.mem_cons_of_mem p hp3, hc3⟩

theorem toCsvBody_shape (rec : Tx) :
    toCsvBody rec =
      safe rec.id ++ ',' ::
        (safe rec.date ++ ',' ::
          (safe rec.category ++ ',' ::
            (safe rec.payee ++ ',' ::
              (ratToDec (amountOrZero rec.amount) ++ ',' :: safe rec.notes)))) := by
  rw [toCsvBody, toCsvFields]
  simp [List.intercalate, List.intersperse]

theorem toCsvBody_ne_nil (rec : Tx) : toCsvBody rec ≠ [] := by
  intro hnil
  have h1 := splitOnChar_toCsvBody rec
  rw [hnil] at h1
  have h2 := congrArg List.length h1
  rw [toCsvFields_length] at h2
  simp [splitOnChar] at h2

theorem nl_not_mem_safe (s : Str) (h : '\n' ∉ s) : '\n' ∉ safe (.str s) := by
  rw [safe]
  intro hm
  have h1 := mem_trim _ '\n' hm
  rw [replaceComma] at h1
  obtain ⟨c, hc, he⟩ := List.mem_map.mp h1
  by_cases hcc : c = ','
  · rw [if_pos hcc] at he
    exact absurd he (by decide)
  · rw [if_neg hcc] at he
    exact h (he ▸ hc)

theorem toCsvBody_wf (rec : Tx)
    (hnl : ∀ f ∈ toCsvFields rec, '\n' ∉ f) :
    lineWF (toCsvBody rec) ∧ toCsvBody rec ≠ [] := by
  refine ⟨⟨?_, ?_⟩, toCsvBody_ne_nil rec⟩
  · rw [toCsvBody]
    intro hm
    rcases mem_intercalate [','] _ '\n' hm with hs | ⟨p, hp, hc⟩
    · simp at hs
    · exact hnl p hp hc
  · -- trim fixed: head and last of the body are not whitespace
    have hhead : isWs ((toCsvBody rec).headD 'x') = false := by
      rw [toCsvBody_shape]
      rcases hid : safe rec.id with _ | ⟨c0, t0⟩
      · simp only [List.nil_append, List.headD_cons]
        decide
      · rw [List.cons_append]
        simp only [List.headD_cons]
        have htr := trim_safe rec.id
        rw [hid] at htr
        have := head_not_ws_of_trim _ htr
        simpa using this
    have hlast : isWs ((toCsvBody rec).getLastD 'x') = false := by
      rw [toCsvBody_shape]
      rcases List.eq_nil_or_concat (safe rec.notes) with hn | ⟨t, b, hn⟩
      · rw [hn]
        have hsh : safe rec.id ++ ',' ::
            (safe rec.date ++ ',' ::
              (safe rec.category ++ ',' ::
                (safe rec.payee ++ ',' ::
                  (ratToDec (amountOrZero rec.amount) ++ ',' :: ([] : Str))))) =
            (safe rec.id ++ ',' ::
              (safe rec.date ++ ',' ::
                (safe rec.category ++ ',' ::
                  (safe rec.payee ++
                    (',' :: ratToDec (amountOrZero rec.amount)))))) ++ [','] := by
          simp
        rw [hsh, List.getLastD_concat]
        decide
      · rw [hn, List.concat_eq_append]
        have htr := trim_safe rec.notes
        rw [hn, List.concat_eq_append] at htr
        have hb := last_not_ws_of_trim _ htr
        rw [List.getLastD_concat] at hb
        have hsh : safe rec.id ++ ',' ::
            (safe rec.date ++ ',' ::
              (safe rec.category ++ ',' ::
                (safe rec.payee ++ ',' ::
                  (ratToDec (amountOrZero rec.amount) ++ ',' :: (t ++ [b]))))) =
            (safe rec.id ++ ',' ::
              (safe rec.date ++ ',' ::
                (safe rec.category ++ ',' ::
                  (safe rec.payee ++ ',' ::
                    (ratToDec (amountOrZero rec.amount) ++ ',' :: t))))) ++ [b] := by
          simp
        rw [hsh, List.getLastD_concat]
        exact hb
    exact trim_eq_self _ hhead hlast

/-- The file contents produced by the program itself: the header line then
one newline-terminated encoded line per record. -/
def mkRaw (lines : List Str) : Str :=
  ((headerBody :: lines).map (fun l => l ++ ['\n'])).flatten

theorem flatten_map_newline (parts : List Str) (h : parts ≠ []) :
    (parts.map (fun l => l ++ ['\n'])).flatten =
      List.intercalate ['\n'] parts ++ ['\n'] := by
  induction parts with
  | nil => exact absurd rfl h
  | cons p ps ih =>
    cases ps with
    | nil => simp [List.intercalate]
    | cons p2 ps2 =>
      rw [List.map_cons, List.flatten_cons, ih (by simp),
        intercalate_cons ['\n'] p _ (by simp)]
      simp

theorem mkRaw_eq (lines : List Str) :
    mkRaw lines = List.intercalate ['\n'] (headerBody :: lines) ++ ['\n'] := by
  rw [mkRaw, flatten_map_newline _ (by simp)]

theorem mkRaw_append (lines : List Str) (b : Str) :
    mkRaw lines ++ (b ++ ['\n']) = mkRaw (lines ++ [b]) := by
  rw [mkRaw, mkRaw, ← List.cons_append, List.map_append, List.flatten_append]
  simp

theorem headerBody_nl : '\n' ∉ headerBody := by decide

theorem loadAllRaw_mkRaw (lines : List Str) (hwf : ∀ l ∈ lines, lineWF l)
    (hlast : lines.getLastD ['x'] ≠ []) :
    loadAllRaw (mkRaw lines) =
      (lines.filter (fun l => !l.isEmpty)).map parseCsvLine := by
  have hcons : ∃ t, mkRaw lines = 'i' :: t :=
    ⟨"d,date,category,payee,amount,notes".toList ++ ['\n'] ++
        (lines.map (fun l => l ++ ['\n'])).flatten, by
      rw [mkRaw, List.map_cons, List.flatten_cons,
        show headerBody = 'i' :: "d,date,category,payee,amount,notes".toList from rfl]
      simp⟩
  have htL : trimL (mkRaw lines) = mkRaw lines := by
    obtain ⟨t, ht⟩ := hcons
    rw [ht]
    apply trimL_eq_self
    simp only [List.headD_cons]
    decide
  have hdecomp : ∃ s : Str, ∃ b : Char,
      List.intercalate ['\n'] (headerBody :: lines) = s ++ [b] ∧ isWs b = false := by
    rcases List.eq_nil_or_concat lines with rfl | ⟨ls, l, hl⟩
    · refine ⟨"id,date,category,payee,amount,note".toList, 's', ?_, by decide⟩
      simp [List.intercalate]
      decide
    · subst hl
      have hlwf : lineWF l := hwf l (by simp)
      have hlne : l ≠ [] := by
        rw [List.concat_eq_append, List.getLastD_concat] at hlast
        exact hlast
      rcases List.eq_nil_or_concat l with rfl | ⟨t, b, hlb⟩
      · exact absurd rfl hlne
      · subst hlb
        have hb : isWs b = false := by
          have h2 := last_not_ws_of_trim _ hlwf.2
          rwa [List.concat_eq_append, List.getLastD_concat] at h2
        rw [List.concat_eq_append, List.concat_eq_append]
        obtain ⟨s, hs⟩ := intercalate_concat_last ['\n'] (headerBody :: ls) t b
        refine ⟨s, b, ?_, hb⟩
        rw [show headerBody :: (ls ++ [t ++ [b]]) =
          (headerBody :: ls) ++ [t ++ [b]] from by simp]
        exact hs
  have htrim : trim (mkRaw lines) = List.intercalate ['\n'] (headerBody :: lines) := by
    obtain ⟨s, b, hsb, hbws⟩ := hdecomp
    rw [trim, htL, mkRaw_eq, trimR_append_ws _ '\n' (by decide), hsb]
    rw [trimR_eq_self _ (by rw [List.getLastD_concat]; exact hbws)]
  rw [loadAllRaw, htrim,
    splitOnChar_intercalate '\n' _ (by simp) ?_]
  · rfl
  · intro p hp
    rcases List.mem_cons.mp hp with rfl | hm
    · exact headerBody_nl
    · exact (hwf p hm).1

theorem createTx_invalid (gid : Str) (r : CreateReq) (st : ServerState)
    (h : truthy r.date = false ∨ truthy r.category = false ∨ r.amount = JSValue.undef) :
    createTx gid r st =
      (.badRequest "date, category, and amount are required".toList, st) := by
  rw [createTx, if_pos ?_]
  simp only [Bool.or_eq_true, Bool.not_eq_true', decide_eq_true_eq]
  rcases h with h | h | h
  · exact Or.inl (Or.inl h)
  · exact Or.inl (Or.inr h)
  · exact Or.inr h

theorem createTx_nan (gid : Str) (r : CreateReq) (st : ServerState)
    (hd : truthy r.date = true) (hc : truthy r.category = true)
    (ha : r.amount ≠ JSValue.undef) (hn : jsNumber r.amount = .nan) :
    createTx gid r st = (.badRequest "amount must be a number".toList, st) := by
  rw [createTx, if_neg ?_]
  · rw [hn]
  · simp only [Bool.or_eq_true, Bool.not_eq_true', decide_eq_true_eq]
    push_neg
    exact ⟨⟨by simp [hd], by simp [hc]⟩, ha⟩

theorem createTx_ok (gid : Str) (r : CreateReq) (st : ServerState) (q : ℚ)
    (hd : truthy r.date = true) (hc : truthy r.category = true)
    (ha : r.amount ≠ JSValue.undef) (hq : jsNumber r.amount = .fin q) :
    createTx gid r st =
      (.ok { id := .str gid, date := r.date, category := r.category,
             payee := jsOr r.payee (.str []), amount := .fin q,
             notes := jsOr r.notes (.str []) },
       { transactions := st.transactions ++
           [{ id := .str gid, date := r.date, category := r.category,
              payee := jsOr r.payee (.str []), amount := .fin q,
              notes := jsOr r.notes (.str []) }],
         fs := appendOne st.fs
           { id := .str gid, date := r.date, category := r.category,
             payee := jsOr r.payee (.str []), amount := .fin q,
             notes := jsOr r.notes (.str []) } }) := by
  rw [createTx, if_neg ?_]
  · rw [hq]
  · simp only [Bool.or_eq_true, Bool.not_eq_true', decide_eq_true_eq]
    push_neg
    exact ⟨⟨by simp [hd], by simp [hc]⟩, ha⟩

theorem createTx_ok_inv (gid : Str) (r : CreateReq) (st : ServerState) (tx : Tx)
    (h : (createTx gid r st).1 = .ok tx) :
    tx = { id := .str gid, date := r.date, category := r.category,
           payee := jsOr r.payee (.str []), amount := jsNumber r.amount,
           notes := jsOr r.notes (.str []) } ∧
    (createTx gid r st).2 =
      { transactions := st.transactions ++ [tx], fs := appendOne st.fs tx } := by
  by_cases hd : truthy r.date = true
  · by_cases hc : truthy r.category = true
    · by_cases ha : r.amount = JSValue.undef
      · rw [createTx_invalid gid r st (Or.inr (Or.inr ha))] at h
        exact absurd h (by simp)
      · rcases hn : jsNumber r.amount with _ | q
        · rw [createTx_nan gid r st hd hc ha hn] at h
          exact absurd h (by simp)
        · have he := createTx_ok gid r st q hd hc ha hn
          rw [he] at h
          have htx := HttpResult.ok.inj h
          subst htx
          refine ⟨rfl, ?_⟩
          rw [he]
    · rw [createTx_invalid gid r st (Or.inr (Or.inl (by simpa using hc)))] at h
      exact absurd h (by simp)
  · rw [createTx_invalid gid r st (Or.inl (by simpa using hd))] at h
    exact absurd h (by simp)

theorem createTx_fail_state (gid : Str) (r : CreateReq) (st : ServerState)
    (h : (createTx gid r st).1.is400 = true) : (createTx gid r st).2 = st := by
  by_cases hd : truthy r.date = true
  · by_cases hc : truthy r.category = true
    · by_cases ha : r.amount = JSValue.undef
      · rw [createTx_invalid gid r st (Or.inr (Or.inr ha))]
      · rcases hn : jsNumber r.amount with _ | q
        · rw [createTx_nan gid r st hd hc ha hn]
        · rw [createTx_ok gid r st q hd hc ha hn] at h
          exact absurd h (by simp [HttpResult.is400])
    · rw [createTx_invalid gid r st (Or.inr (Or.inl (by simpa using hc)))]
  · rw [createTx_invalid gid r st (Or.inl (by simpa using hd))]

/-- A request field value that round-trips through the file exactly:
absent, or a string with no delimiter, no newline, and no surrounding
whitespace. -/
def fieldWF : JSValue → Prop
  | .undef => True
  | .str s => cleanField s ∧ '\n' ∉ s
  | _ => False

instance (v : JSValue) : Decidable (fieldWF v) := by
  cases v <;> simp only [fieldWF] <;> infer_instance

/-- An amount value whose numeric coercion is machine-representable (only
constrains directly numeric amounts; every IEEE double satisfies it). -/
def amtWF : JSValue → Prop
  | .num (.fin q) => DecRep q
  | _ => True

instance (v : JSValue) : Decidable (amtWF v) := by
  match v with
  | .num (.fin q) => rw [show amtWF (.num (.fin q)) = DecRep q from rfl, DecRep]; infer_instance
  | .undef | .null | .bool _ | .num .nan | .str _ => exact .isTrue trivial

/-- Well-formedness of a create request for exact memory/file mirroring. -/
def reqWF (r : CreateReq) : Prop :=
  fieldWF r.date ∧ fieldWF r.category ∧ fieldWF r.payee ∧ fieldWF r.notes ∧
    amtWF r.amount

instance (r : CreateReq) : Decidable (reqWF r) := by
  rw [reqWF]
  infer_instance

theorem amtWF_decRep (v : JSValue) (h : amtWF v) :
    ∀ q0 : ℚ, v = .num (.fin q0) → DecRep q0 := by
  intro q0 he
  subst he
  exact h

theorem jsOr_field (v : JSValue) (h : fieldWF v) :
    ∃ s, jsOr v (.str []) = .str s ∧ cleanField s ∧ '\n' ∉ s := by
  match v with
  | .undef =>
    exact ⟨[], rfl, ⟨by simp, rfl⟩, by simp⟩
  | .str s =>
    rw [jsOr]
    by_cases hs : truthy (JSValue.str s) = true
    · rw [if_pos hs]
      exact ⟨s, rfl, h.1, h.2⟩
    · rw [if_neg hs]
      exact ⟨[], rfl, ⟨by simp, rfl⟩, by simp⟩
  | .null => exact h.elim
  | .bool b => exact h.elim
  | .num n => exact h.elim

theorem truthy_field (v : JSValue) (h : fieldWF v) (ht : truthy v = true) :
    ∃ s, v = .str s ∧ cleanField s ∧ '\n' ∉ s ∧ s ≠ [] := by
  match v with
  | .undef => exact absurd ht (by decide)
  | .str s =>
    refine ⟨s, rfl, h.1, h.2, ?_⟩
    have ht2 : (!s.isEmpty) = true := ht
    intro hnil
    rw [hnil] at ht2
    simp at ht2
  | .null => exact h.elim
  | .bool b => exact h.elim
  | .num n => exact h.elim

/-- The state invariant relating memory and file: the file is a header
followed by well-formed newline-terminated lines, the last line (if any)
nonempty, and the in-memory array is exactly the decoded non-blank lines. -/
def stInv (st : ServerState) : Prop :=
  ∃ lines : List Str,
    (∀ l ∈ lines, lineWF l) ∧ lines.getLastD ['x'] ≠ [] ∧
    st.fs.file = some (mkRaw lines) ∧
    st.transactions = (lines.filter (fun l => !l.isEmpty)).map parseCsvLine

theorem mkRaw_nil : mkRaw [] = csvHeader := by
  rw [mkRaw, csvHeader]
  simp

theorem stInv_createTx (gid : Str) (r : CreateReq) (st : ServerState)
    (hinv : stInv st) (hg : cleanField gid ∧ '\n' ∉ gid) (hr : reqWF r) :
    stInv (createTx gid r st).2 := by
  by_cases hd : truthy r.date = true
  · by_cases hc : truthy r.category = true
    · by_cases ha : r.amount = JSValue.undef
      · rw [createTx_invalid gid r st (Or.inr (Or.inr ha))]
        exact hinv
      · rcases hn : jsNumber r.amount with _ | q
        · rw [createTx_nan gid r st hd hc ha hn]
          exact hinv
        · rw [createTx_ok gid r st q hd hc ha hn]
          obtain ⟨lines, hwf, hlast, hfile, htxs⟩ := hinv
          obtain ⟨d, hde, hdc, hdn⟩ := truthy_field r.date hr.1 hd
          obtain ⟨c, hce, hcc, hcn⟩ := truthy_field r.category hr.2.1 hc
          obtain ⟨p, hpe, hpc, hpn⟩ := jsOr_field r.payee hr.2.2.1
          obtain ⟨n, hne, hnc, hnn⟩ := jsOr_field r.notes hr.2.2.2.1
          have hqdec : DecRep q :=
            jsNumber_decRep r.amount q hn (amtWF_decRep r.amount hr.2.2.2.2)
          set tx : Tx :=
            { id := .str gid, date := r.date, category := r.category,
              payee := jsOr r.payee (.str []), amount := .fin q,
              notes := jsOr r.notes (.str []) } with htx
          have htx2 : tx =
              { id := .str gid, date := .str d, category := .str c,
                payee := .str p, amount := .fin q, notes := .str n } := by
            rw [htx, hde, hce, hpe, hne]
          have hparse : parseCsvLine (toCsvBody tx) = tx := by
            rw [htx2]
            exact parseCsvLine_toCsvBody gid d c p n q hg.1 hdc hcc hpc hnc hqdec
          have hbodywf : lineWF (toCsvBody tx) ∧ toCsvBody tx ≠ [] := by
            apply toCsvBody_wf
            rw [htx2]
            intro f hf
            simp only [toCsvFields, List.mem_cons, List.not_mem_nil, or_false] at hf
            rcases hf with rfl | rfl | rfl | rfl | rfl | rfl
            · exact nl_not_mem_safe gid hg.2
            · exact nl_not_mem_safe d hdn.1
            · exact nl_not_mem_safe c hcn.1
            · exact nl_not_mem_safe p hpn
            · exact nl_not_mem_ratToDec _
            · exact nl_not_mem_safe n hnn
          refine ⟨lines ++ [toCsvBody tx], ?_, ?_, ?_, ?_⟩
          · intro l hl
            rcases List.mem_append.mp hl with hm | hm
            · exact hwf l hm
            · rw [List.mem_singleton.mp hm]
              exact hbodywf.1
          · rw [List.getLastD_concat]
            exact hbodywf.2
          · show (appendOne st.fs tx).file = some (mkRaw (lines ++ [toCsvBody tx]))
            rw [appendOne, hfile]
            simp only [Option.getD_some]
            rw [toCsvLine, mkRaw_append]
          · show st.transactions ++ [tx] = _
            rw [htxs, List.filter_append, List.map_append]
            congr 1
            have hbne : (toCsvBody tx).isEmpty = false := by
              rcases hb : toCsvBody tx with _ | ⟨a, as⟩
              · exact absurd hb hbodywf.2
              · rfl
            rw [show List.filter (fun l => !l.isEmpty) [toCsvBody tx] =
              [toCsvBody tx] from by rw [List.filter_cons, hbne]; rfl]
            rw [List.map_cons]
            rw [hparse]
            rfl
    · rw [createTx_invalid gid r st (Or.inr (Or.inl (by simpa using hc)))]
      exact hinv
  · rw [createTx_invalid gid r st (Or.inl (by simpa using hd))]
    exact hinv

theorem stInv_runCreates (reqs : List (Str × CreateReq)) (st : ServerState)
    (hinv : stInv st)
    (hr : ∀ gr ∈ reqs, (cleanField gr.1 ∧ '\n' ∉ gr.1) ∧ reqWF gr.2) :
    stInv (runCreates reqs st) := by
  induction reqs generalizing st with
  | nil => exact hinv
  | cons gr rest ih =>
    rw [runCreates, List.foldl_cons]
    have h1 := stInv_createTx gr.1 gr.2 st hinv (hr gr (by simp)).1 (hr gr (by simp)).2
    exact ih _ h1 (fun g hg => hr g (List.mem_cons_of_mem gr hg))

theorem stInv_startServer (d0 : Bool) (lines : List Str)
    (hwf : ∀ l ∈ lines, lineWF l) (hlast : lines.getLastD ['x'] ≠ []) :
    stInv (startServer { dirExists := d0, file := some (mkRaw lines) }) := by
  refine ⟨lines, hwf, hlast, ?_, ?_⟩
  · rw [startServer, ensureCsv]
    cases d0 <;> simp
  · rw [startServer, ensureCsv]
    cases d0 <;> simp <;> exact loadAllRaw_mkRaw lines hwf hlast

theorem stInv_conclusion (st : ServerState) (h : stInv st) :
    loadAllRaw (st.fs.file.getD []) = st.transactions := by
  obtain ⟨lines, hwf, hlast, hfile, htxs⟩ := h
  rw [hfile, Option.getD_some, loadAllRaw_mkRaw lines hwf hlast, htxs]

theorem truthy_str_eq_false (s : Str) (h : truthy (.str s) = false) : s = [] := by
  have h2 : (!s.isEmpty) = false := h
  rcases s with _ | ⟨a, as⟩
  · rfl
  · simp at h2

theorem truthy_str_of_ne (s : Str) (h : s ≠ []) : truthy (.str s) = true := by
  rcases s with _ | ⟨a, as⟩
  · exact absurd rfl h
  · rfl

/-- C1: the create route answers HTTP 400 exactly when `date` is
absent/empty, or `category` is absent/empty, or `amount` is absent (the
value `undefined`, not merely falsy), or `amount` coerced to a number is
NaN — stated for requests whose `date` and `category` are strings or
absent, as the data model specifies those fields to be strings — and on
every such failure the whole server state, the in-memory sequence and the
file alike, is unchanged. -/
theorem C1_create_validation (gid : Str) (r : CreateReq) (st : ServerState)
    (hd : r.date = .undef ∨ ∃ s, r.date = .str s)
    (hc : r.category = .undef ∨ ∃ s, r.category = .str s) :
    ((createTx gid r st).1.is400 = true ↔
      (r.date = .undef ∨ r.date = .str [] ∨ r.category = .undef ∨
        r.category = .str [] ∨ r.amount = .undef ∨ jsNumber r.amount = .nan)) ∧
    ((createTx gid r st).1.is400 = true → (createTx gid r st).2 = st) := by
  refine ⟨⟨?_, ?_⟩, createTx_fail_state gid r st⟩
  · intro h400
    by_cases hdt : truthy r.date = true
    · by_cases hct : truthy r.category = true
      · by_cases ha : r.amount = JSValue.undef
        · exact Or.inr (Or.inr (Or.inr (Or.inr (Or.inl ha))))
        · rcases hn : jsNumber r.amount with _ | q
          · exact Or.inr (Or.inr (Or.inr (Or.inr (Or.inr rfl))))
          · rw [createTx_ok gid r st q hdt hct ha hn] at h400
            exact absurd h400 (by simp [HttpResult.is400])
      · rcases hc with hcu | ⟨s, hcs⟩
        · exact Or.inr (Or.inr (Or.inl hcu))
        · have hse : s = [] := by
            apply truthy_str_eq_false
            rw [← hcs]
            simpa using hct
          exact Or.inr (Or.inr (Or.inr (Or.inl (by rw [hcs, hse]))))
    · rcases hd with hdu | ⟨s, hds⟩
      · exact Or.inl hdu
      · have hse : s = [] := by
          apply truthy_str_eq_false
          rw [← hds]
          simpa using hdt
        exact Or.inr (Or.inl (by rw [hds, hse]))
  · intro hdisj
    rcases hdisj with h | h | h | h | h | h
    · rw [createTx_invalid gid r st (Or.inl (by rw [h]; rfl))]
      rfl
    · rw [createTx_invalid gid r st (Or.inl (by rw [h]; rfl))]
      rfl
    · rw [createTx_invalid gid r st (Or.inr (Or.inl (by rw [h]; rfl)))]
      rfl
    · rw [createTx_invalid gid r st (Or.inr (Or.inl (by rw [h]; rfl)))]
      rfl
    · rw [createTx_invalid gid r st (Or.inr (Or.inr h))]
      rfl
    · by_cases hdt : truthy r.date = true
      · by_cases hct : truthy r.category = true
        · by_cases ha : r.amount = JSValue.undef
          · rw [createTx_invalid gid r st (Or.inr (Or.inr ha))]
            rfl
          · rw [createTx_nan gid r st hdt hct ha h]
            rfl
        · rw [createTx_invalid gid r st (Or.inr (Or.inl (by simpa using hct)))]
          rfl
      · rw [createTx_invalid gid r st (Or.inl (by simpa using hdt))]
        rfl

/-- The state of a server started on an empty data directory. -/
def st0 : ServerState := startServer { dirExists := false, file := none }

/-- A create request that provides `date` and `category` but no `amount`
(the missing-field validation example of the spec). -/
def reqMissingAmount : CreateReq :=
  { date := .str "2025-01-01".toList, category := .str "Food".toList,
    payee := .undef, amount := .undef, notes := .undef }

theorem C1_create_validation_witness :
    ((createTx ['1'] reqMissingAmount st0).1.is400 = true →
      (createTx ['1'] reqMissingAmount st0).2 = st0) ∧
    (createTx ['1'] reqMissingAmount st0).1.is400 = true :=
  ⟨(C1_create_validation ['1'] reqMissingAmount st0
      (Or.inr ⟨"2025-01-01".toList, rfl⟩) (Or.inr ⟨"Food".toList, rfl⟩)).2,
   (C1_create_validation ['1'] reqMissingAmount st0
      (Or.inr ⟨"2025-01-01".toList, rfl⟩) (Or.inr ⟨"Food".toList, rfl⟩)).1.mpr
     (Or.inr (Or.inr (Or.inr (Or.inr (Or.inl rfl)))))⟩

/-- C5: on a valid create request (date and category present and
non-empty, amount defined and numerically coercible) the route returns
HTTP 200 with the created record, which carries the generated identifier,
the given date and category, the coerced numeric amount (in particular
amount 0 is accepted and stored as 0), defaults payee and notes to the
empty string when absent, and the state gains exactly that record in
memory and its encoded line in the file. -/
theorem C5_create_success (gid : Str) (r : CreateReq) (st : ServerState)
    (d c : Str) (q : ℚ)
    (hd : r.date = .str d) (hdne : d ≠ [])
    (hc : r.category = .str c) (hcne : c ≠ [])
    (ha : r.amount ≠ .undef) (hq : jsNumber r.amount = .fin q) :
    ∃ tx : Tx,
      createTx gid r st =
        (.ok tx,
         { transactions := st.transactions ++ [tx], fs := appendOne st.fs tx }) ∧
      tx.id = .str gid ∧ tx.date = .str d ∧ tx.category = .str c ∧
      tx.amount = .fin q ∧
      (r.payee = .undef → tx.payee = .str []) ∧
      (r.notes = .undef → tx.notes = .str []) ∧
      (r.amount = .num (.fin 0) → tx.amount = .fin 0) := by
  have hdt : truthy r.date = true := by rw [hd]; exact truthy_str_of_ne d hdne
  have hct : truthy r.category = true := by rw [hc]; exact truthy_str_of_ne c hcne
  refine ⟨_, createTx_ok gid r st q hdt hct ha hq,
    rfl, by rw [hd], by rw [hc], rfl, ?_, ?_, ?_⟩
  · intro hp
    show jsOr r.payee (.str []) = .str []
    rw [hp]
    rfl
  · intro hn
    show jsOr r.notes (.str []) = .str []
    rw [hn]
    rfl
  · intro h0
    rw [h0] at hq
    have hq0 : (0 : ℚ) = q := JSNum.fin.inj hq
    show JSNum.fin q = .fin 0
    rw [← hq0]

/-- The spec's amount-zero validation example. -/
def reqZeroAmount : CreateReq :=
  { date := .str "2025-01-01".toList, category := .str "Food".toList,
    payee := .undef, amount := .num (.fin 0), notes := .undef }

theorem C5_create_success_witness :
    reqZeroAmount.date = .str "2025-01-01".toList ∧
    reqZeroAmount.amount ≠ .undef ∧
    jsNumber reqZeroAmount.amount = .fin 0 ∧
    (∃ tx : Tx,
      createTx ['7'] reqZeroAmount st0 =
        (.ok tx,
         { transactions := st0.transactions ++ [tx],
           fs := appendOne st0.fs tx }) ∧
      tx.id = .str ['7'] ∧ tx.date = .str "2025-01-01".toList ∧
      tx.category = .str "Food".toList ∧ tx.amount = .fin 0 ∧
      (reqZeroAmount.payee = .undef → tx.payee = .str []) ∧
      (reqZeroAmount.notes = .undef → tx.notes = .str []) ∧
      (reqZeroAmount.amount = .num (.fin 0) → tx.amount = .fin 0)) :=
  ⟨rfl, by decide, rfl,
   C5_create_success ['7'] reqZeroAmount st0 "2025-01-01".toList "Food".toList 0
     rfl (by decide) rfl (by decide) (by decide) rfl⟩

/-- C10 (implicit): with date and category acceptable, a defined `amount`
is rejected exactly when its numeric coercion is NaN; in particular the
falsy-but-not-NaN values `null`, the empty string and `false` pass
validation (only `undefined` counts as missing) and the stored record's
amount is 0. -/
theorem C10_falsy_amounts (gid : Str) (r : CreateReq) (st : ServerState)
    (hd : truthy r.date = true) (hc : truthy r.category = true)
    (ha : r.amount ≠ .undef) :
    ((createTx gid r st).1.is400 = true ↔ jsNumber r.amount = .nan) ∧
    ((r.amount = .null ∨ r.amount = .str [] ∨ r.amount = .bool false) →
      ∃ tx : Tx, (createTx gid r st).1 = .ok tx ∧ tx.amount = .fin 0) := by
  constructor
  · constructor
    · intro h400
      rcases hn : jsNumber r.amount with _ | q
      · rfl
      · rw [createTx_ok gid r st q hd hc ha hn] at h400
        exact absurd h400 (by simp [HttpResult.is400])
    · intro hn
      rw [createTx_nan gid r st hd hc ha hn]
      rfl
  · intro hfalsy
    have hn : jsNumber r.amount = .fin 0 := by
      rcases hfalsy with h | h | h <;> rw [h] <;> rfl
    exact ⟨{ id := .str gid, date := r.date, category := r.category,
             payee := jsOr r.payee (.str []), amount := .fin 0,
             notes := jsOr r.notes (.str []) },
           by rw [createTx_ok gid r st 0 hd hc ha hn], rfl⟩

/-- A create request whose amount is `null` (falsy but defined). -/
def reqNullAmount : CreateReq :=
  { date := .str "2025-01-01".toList, category := .str "Food".toList,
    payee := .undef, amount := .null, notes := .undef }

theorem C10_falsy_amounts_witness :
    truthy reqNullAmount.date = true ∧
    truthy reqNullAmount.category = true ∧
    reqNullAmount.amount ≠ .undef ∧
    (((createTx ['9'] reqNullAmount st0).1.is400 = true ↔
        jsNumber reqNullAmount.amount = .nan) ∧
      ((reqNullAmount.amount = .null ∨ reqNullAmount.amount = .str [] ∨
          reqNullAmount.amount = .bool false) →
        ∃ tx : Tx, (createTx ['9'] reqNullAmount st0).1 = .ok tx ∧
          tx.amount = .fin 0)) :=
  ⟨by decide, by decide, by decide,
   C10_falsy_amounts ['9'] reqNullAmount st0 (by decide) (by decide) (by decide)⟩

/-- C9: List has no input and returns the in-memory sequence; after two
successful creates in the same process the sequence ends with the first
created record before the second, in append order. -/
theorem C9_append_order (st : ServerState) (g1 g2 : Str) (r1 r2 : CreateReq)
    (tx1 tx2 : Tx) (st1 st2 : ServerState)
    (h1 : createTx g1 r1 st = (.ok tx1, st1))
    (h2 : createTx g2 r2 st1 = (.ok tx2, st2)) :
    listTx st2 = listTx st ++ [tx1, tx2] ∧ listTx st2 = st2.transactions := by
  have h1a : (createTx g1 r1 st).1 = .ok tx1 := by rw [h1]
  have h1b : (createTx g1 r1 st).2 = st1 := by rw [h1]
  have h2a : (createTx g2 r2 st1).1 = .ok tx2 := by rw [h2]
  have h2b : (createTx g2 r2 st1).2 = st2 := by rw [h2]
  have e1 := (createTx_ok_inv g1 r1 st tx1 h1a).2
  rw [h1b] at e1
  have e2 := (createTx_ok_inv g2 r2 st1 tx2 h2a).2
  rw [h2b] at e2
  refine ⟨?_, rfl⟩
  rw [listTx, listTx, e2, e1]
  simp

/-- First witness request: date `d`, category `c`, amount 1. -/
def reqT1 : CreateReq :=
  { date := .str ['d'], category := .str ['c'],
    payee := .undef, amount := .num (.fin 1), notes := .undef }

/-- Second witness request: date `e`, category `f`, amount 2. -/
def reqT2 : CreateReq :=
  { date := .str ['e'], category := .str ['f'],
    payee := .undef, amount := .num (.fin 2), notes := .undef }

/-- The record created by the first witness request. -/
def txT1 : Tx :=
  { id := .str ['1'], date := .str ['d'], category := .str ['c'],
    payee := .str [], amount := .fin 1, notes := .str [] }

/-- The record created by the second witness request. -/
def txT2 : Tx :=
  { id := .str ['2'], date := .str ['e'], category := .str ['f'],
    payee := .str [], amount := .fin 2, notes := .str [] }

/-- The state after the first witness create. -/
def stA : ServerState := (createTx ['1'] reqT1 st0).2

/-- The state after the second witness create. -/
def stB : ServerState := (createTx ['2'] reqT2 stA).2

theorem C9_append_order_witness :
    createTx ['1'] reqT1 st0 = (.ok txT1, stA) ∧
    createTx ['2'] reqT2 stA = (.ok txT2, stB) ∧
    (listTx stB = listTx st0 ++ [txT1, txT2] ∧ listTx stB = stB.transactions) :=
  ⟨by decide, by decide,
   C9_append_order st0 ['1'] ['2'] reqT1 reqT2 txT1 txT2 stA stB
     (by decide) (by decide)⟩

/-- Numeric equality of two JavaScript numbers; `NaN` compares equal to
nothing, as in JavaScript. -/
def numEq : JSNum → JSNum → Prop
  | .fin a, .fin b => a = b
  | _, _ => False

instance : (a b : JSNum) → Decidable (numEq a b)
  | .fin a, .fin b => by
    rw [show numEq (.fin a) (.fin b) = (a = b) from rfl]
    infer_instance
  | .nan, .nan => .isFalse (fun h => h)
  | .nan, .fin _ => .isFalse (fun h => h)
  | .fin _, .nan => .isFalse (fun h => h)

/-- Record equality with the amount field compared numerically. -/
def txEqNum (a b : Tx) : Prop :=
  a.id = b.id ∧ a.date = b.date ∧ a.category = b.category ∧
  a.payee = b.payee ∧ numEq a.amount b.amount ∧ a.notes = b.notes

instance (a b : Tx) : Decidable (txEqNum a b) := by
  rw [txEqNum]
  infer_instance

/-- A create request whose notes contain a delimiter character. -/
def reqCommaNotes : CreateReq :=
  { date := .str "2025-01-01".toList, category := .str "Food".toList,
    payee := .undef, amount := .num (.fin 1), notes := .str "a,b".toList }

/-- C2 counterexample: one successful create, reachable from the freshly
loaded store, whose notes contain a comma.  The create succeeds and pushes
notes `"a,b"` into memory, but the file stores `"a b"`, so decoding the
file's data lines does not yield the in-memory sequence. -/
theorem C2_counterexample :
    (createTx ['1'] reqCommaNotes st0).1 =
      .ok { id := .str ['1'], date := .str "2025-01-01".toList,
            category := .str "Food".toList, payee := .str [],
            amount := .fin 1, notes := .str "a,b".toList } ∧
    loadAllRaw ((createTx ['1'] reqCommaNotes st0).2.fs.file.getD []) ≠
      (createTx ['1'] reqCommaNotes st0).2.transactions := by
  constructor
  · decide
  · decide

/-- C2 (amended): starting from a loaded store whose file is well formed —
the header plus newline-terminated lines, none containing a newline or
surrounding whitespace, the last one nonempty — and for create requests
whose generated identifier and string field values contain no delimiter
and no newline and carry no surrounding whitespace (with directly numeric
amounts machine-representable), after any sequence of create operations
the decoded data lines of the file are exactly the in-memory sequence,
element for element (failed creates change nothing).  The counterexample
shows the unamended claim false: a delimiter inside a field is replaced on
encode, so the file decodes to a record different from the one in
memory. -/
theorem C2_memory_file_mirror (lines : List Str) (d0 : Bool)
    (reqs : List (Str × CreateReq))
    (hwf : ∀ l ∈ lines, lineWF l) (hlast : lines.getLastD ['x'] ≠ [])
    (hr : ∀ gr ∈ reqs, (cleanField gr.1 ∧ '\n' ∉ gr.1) ∧ reqWF gr.2) :
    loadAllRaw
        ((runCreates reqs
            (startServer { dirExists := d0, file := some (mkRaw lines) })).fs.file.getD []) =
      (runCreates reqs
        (startServer { dirExists := d0, file := some (mkRaw lines) })).transactions :=
  stInv_conclusion _
    (stInv_runCreates reqs _ (stInv_startServer d0 lines hwf hlast) hr)

theorem C2_memory_file_mirror_witness :
    (∀ l ∈ ([] : List Str), lineWF l) ∧
    (([] : List Str).getLastD ['x'] ≠ []) ∧
    (∀ gr ∈ [(['1'], reqT1)], (cleanField gr.1 ∧ '\n' ∉ gr.1) ∧ reqWF gr.2) ∧
    loadAllRaw
        ((runCreates [(['1'], reqT1)]
            (startServer { dirExists := false, file := some (mkRaw []) })).fs.file.getD []) =
      (runCreates [(['1'], reqT1)]
        (startServer { dirExists := false, file := some (mkRaw []) })).transactions :=
  ⟨by decide, by decide, by decide,
   C2_memory_file_mirror [] false [(['1'], reqT1)] (by decide) (by decide) (by decide)⟩

/-- A record with no delimiter in any field whose notes begin with a
space. -/
def recLeadingSpace : Tx :=
  { id := .str ['1'], date := .str "2025-01-01".toList,
    category := .str "Food".toList, payee := .str "Shop".toList,
    amount := .fin (mkRat (-21) 2), notes := .str (' ' :: "ok".toList) }

/-- C3 counterexample: a record containing no delimiter character in any
field whose notes carry a leading space.  Encoding trims each field, so
one encode/decode cycle returns notes `"ok"` instead of `" ok"`: the claim
as stated (delimiter-freedom alone suffices) is false. -/
theorem C3_counterexample :
    (',' ∉ (['1'] : Str) ∧ ',' ∉ "2025-01-01".toList ∧ ',' ∉ "Food".toList ∧
      ',' ∉ "Shop".toList ∧ ',' ∉ (' ' :: "ok".toList)) ∧
    ¬ txEqNum (parseCsvLine (toCsvBody recLeadingSpace)) recLeadingSpace := by
  constructor
  · decide
  · decide

/-- C3 (amended): for every record whose six fields are strings containing
no delimiter character and carrying no leading or trailing whitespace, and
whose amount is a finite machine-representable number, encoding to a CSV
line and decoding it back yields a record equal to the original, and in
particular equal under amount-numerical comparison. -/
theorem C3_roundtrip (i d c p n : Str) (q : ℚ)
    (hi : cleanField i) (hd : cleanField d) (hc : cleanField c)
    (hp : cleanField p) (hn : cleanField n) (hq : DecRep q) :
    parseCsvLine (toCsvBody
      { id := .str i, date := .str d, category := .str c, payee := .str p,
        amount := .fin q, notes := .str n }) =
      { id := .str i, date := .str d, category := .str c, payee := .str p,
        amount := .fin q, notes := .str n } ∧
    txEqNum
      (parseCsvLine (toCsvBody
        { id := .str i, date := .str d, category := .str c, payee := .str p,
          amount := .fin q, notes := .str n }))
      { id := .str i, date := .str d, category := .str c, payee := .str p,
        amount := .fin q, notes := .str n } := by
  have he := parseCsvLine_toCsvBody i d c p n q hi hd hc hp hn hq
  refine ⟨he, ?_⟩
  rw [he]
  exact ⟨rfl, rfl, rfl, rfl, rfl, rfl⟩

theorem C3_roundtrip_witness :
    cleanField ['1'] ∧ cleanField "2025-01-01".toList ∧
    cleanField "Food".toList ∧ cleanField "Shop".toList ∧
    cleanField "ok".toList ∧ DecRep (mkRat (-21) 2) ∧
    (parseCsvLine (toCsvBody
      { id := .str ['1'], date := .str "2025-01-01".toList,
        category := .str "Food".toList, payee := .str "Shop".toList,
        amount := .fin (mkRat (-21) 2), notes := .str "ok".toList }) =
      { id := .str ['1'], date := .str "2025-01-01".toList,
        category := .str "Food".toList, payee := .str "Shop".toList,
        amount := .fin (mkRat (-21) 2), notes := .str "ok".toList } ∧
    txEqNum
      (parseCsvLine (toCsvBody
        { id := .str ['1'], date := .str "2025-01-01".toList,
          category := .str "Food".toList, payee := .str "Shop".toList,
          amount := .fin (mkRat (-21) 2), notes := .str "ok".toList }))
      { id := .str ['1'], date := .str "2025-01-01".toList,
        category := .str "Food".toList, payee := .str "Shop".toList,
        amount := .fin (mkRat (-21) 2), notes := .str "ok".toList }) :=
  ⟨by decide, by decide, by decide, by decide, by decide, by decide,
   C3_roundtrip ['1'] "2025-01-01".toList "Food".toList "Shop".toList
     "ok".toList (mkRat (-21) 2) (by decide) (by decide) (by decide)
     (by decide) (by decide) (by decide)⟩

/-- C4: encoding replaces every delimiter character inside a field with a
single space, so a record with notes `"a,b,c"` comes back with notes
`"a b c"` after one encode/decode cycle, and an encoded line always splits
into exactly six fields. -/
theorem C4_delimiter_stripping (rec : Tx) :
    (splitOnChar ',' (toCsvBody rec)).length = 6 ∧
    (rec.notes = .str "a,b,c".toList →
      (parseCsvLine (toCsvBody rec)).notes = .str "a b c".toList) := by
  constructor
  · rw [splitOnChar_toCsvBody, toCsvFields_length]
  · intro hn
    simp only [parseCsvLine]
    rw [splitOnChar_toCsvBody]
    simp only [toCsvFields, fieldAt, List.get?]
    rw [hn]
    rw [show safe (.str "a,b,c".toList) = "a b c".toList from by decide]
    rfl

/-- A record whose notes field is the spec's delimiter example. -/
def recCommaNotes : Tx :=
  { id := .str ['1'], date := .str "2025-01-01".toList,
    category := .str "Food".toList, payee := .str [],
    amount := .fin 1, notes := .str "a,b,c".toList }

theorem C4_delimiter_stripping_witness :
    recCommaNotes.notes = .str "a,b,c".toList ∧
    (splitOnChar ',' (toCsvBody recCommaNotes)).length = 6 ∧
    (parseCsvLine (toCsvBody recCommaNotes)).notes = .str "a b c".toList :=
  ⟨rfl, (C4_delimiter_stripping recCommaNotes).1,
   (C4_delimiter_stripping recCommaNotes).2 rfl⟩

theorem fieldAt_lt (ps : List Str) (i : Nat) (h : i < ps.length) :
    fieldAt ps i = .str (ps.getD i []) := by
  rw [fieldAt]
  rcases hg : ps.get? i with _ | s
  · rw [List.get?_eq_none] at hg
    omega
  · rw [List.getD_eq_get?, hg]
    rfl

theorem fieldAt_ge (ps : List Str) (i : Nat) (h : ps.length ≤ i) :
    fieldAt ps i = .undef := by
  rw [fieldAt, List.get?_eq_none.mpr h]

theorem fieldAt_append (ps qs : List Str) (i : Nat) (h : i < ps.length) :
    fieldAt (ps ++ qs) i = fieldAt ps i := by
  rw [fieldAt, fieldAt, List.get?_append h]

/-- C6: decode splits the line on the delimiter into six positional fields
in the order id, date, category, payee, amount, notes; fields beyond six
are ignored; missing trailing fields become absent (and absent notes
default to the empty string); the amount field is parsed as a number, a
missing or non-numeric amount yielding the NaN sentinel. -/
theorem C6_decode (line : Str) :
    (6 ≤ (splitOnChar ',' line).length →
      parseCsvLine line =
        { id := .str ((splitOnChar ',' line).getD 0 []),
          date := .str ((splitOnChar ',' line).getD 1 []),
          category := .str ((splitOnChar ',' line).getD 2 []),
          payee := .str ((splitOnChar ',' line).getD 3 []),
          amount := strToNum ((splitOnChar ',' line).getD 4 []),
          notes := .str ((splitOnChar ',' line).getD 5 []) }) ∧
    (∀ extra : Str, 6 ≤ (splitOnChar ',' line).length →
      parseCsvLine (line ++ ',' :: extra) = parseCsvLine line) ∧
    ((splitOnChar ',' line).length ≤ 5 → (parseCsvLine line).notes = .str []) ∧
    ((splitOnChar ',' line).length ≤ 4 → (parseCsvLine line).amount = .nan) ∧
    ((splitOnChar ',' line).length ≤ 3 → (parseCsvLine line).payee = .undef) ∧
    (parseCsvLine "a,b,c,d,xyz".toList).amount = .nan := by
  refine ⟨?_, ?_, ?_, ?_, ?_, by decide⟩
  · intro h6
    simp only [parseCsvLine]
    rw [fieldAt_lt _ 0 (by omega), fieldAt_lt _ 1 (by omega),
      fieldAt_lt _ 2 (by omega), fieldAt_lt _ 3 (by omega),
      fieldAt_lt _ 4 (by omega), fieldAt_lt _ 5 (by omega)]
    rfl
  · intro extra h6
    simp only [parseCsvLine]
    rw [splitOnChar_append]
    rw [fieldAt_append _ _ 0 (by omega), fieldAt_append _ _ 1 (by omega),
      fieldAt_append _ _ 2 (by omega), fieldAt_append _ _ 3 (by omega),
      fieldAt_append _ _ 4 (by omega), fieldAt_append _ _ 5 (by omega)]
  · intro h5
    simp only [parseCsvLine]
    rw [fieldAt_ge _ 5 (by omega)]
    rfl
  · intro h4
    simp only [parseCsvLine]
    rw [fieldAt_ge _ 4 (by omega)]
    rfl
  · intro h3
    simp only [parseCsvLine]
    rw [fieldAt_ge _ 3 (by omega)]

/-- A data line with seven comma-separated fields. -/
def line7 : Str := "i,2025,Food,Shop,1.5,note,EXTRA".toList

theorem C6_decode_witness :
    6 ≤ (splitOnChar ',' line7).length ∧
    parseCsvLine line7 =
      { id := .str ((splitOnChar ',' line7).getD 0 []),
        date := .str ((splitOnChar ',' line7).getD 1 []),
        category := .str ((splitOnChar ',' line7).getD 2 []),
        payee := .str ((splitOnChar ',' line7).getD 3 []),
        amount := strToNum ((splitOnChar ',' line7).getD 4 []),
        notes := .str ((splitOnChar ',' line7).getD 5 []) } :=
  ⟨by decide, (C6_decode line7).1 (by decide)⟩

/-- C7: encode coerces each field to a string, replaces every delimiter
character with a single space and trims surrounding whitespace, coerces
the amount through numeric parsing first (NaN collapses to zero) and
renders it as a plain decimal string, joins the six fields with the
delimiter in the fixed order id, date, category, payee, amount, notes, and
terminates the line with a newline. -/
theorem C7_encode (rec : Tx) :
    toCsvLine rec = List.intercalate [','] (toCsvFields rec) ++ ['\n'] ∧
    (toCsvFields rec).length = 6 ∧
    toCsvFields rec =
      [safe rec.id, safe rec.date, safe rec.category, safe rec.payee,
        ratToDec (amountOrZero rec.amount), safe rec.notes] ∧
    splitOnChar ',' (toCsvBody rec) = toCsvFields rec ∧
    (∀ f ∈ toCsvFields rec, ',' ∉ f ∧ trim f = f) ∧
    (rec.amount = .nan → ratToDec (amountOrZero rec.amount) = ['0']) ∧
    (∀ s, safe (.str s) = trim (replaceComma s)) ∧
    replaceComma "a,b".toList = "a b".toList := by
  refine ⟨rfl, rfl, rfl, splitOnChar_toCsvBody rec, ?_, ?_, fun s => rfl, by decide⟩
  · intro f hf
    exact ⟨toCsvFields_comma rec f hf, toCsvFields_trim rec f hf⟩
  · intro hnan
    rw [hnan]
    decide

/-- A record whose amount is the NaN sentinel (as decoded from a corrupt
line). -/
def recNanAmount : Tx :=
  { id := .str ['1'], date := .str ['d'], category := .str ['c'],
    payee := .str [], amount := .nan, notes := .str [] }

theorem C7_encode_witness :
    recNanAmount.amount = .nan ∧
    ratToDec (amountOrZero recNanAmount.amount) = ['0'] ∧
    toCsvLine recNanAmount = "1,d,c,,0,\n".toList :=
  ⟨rfl, (C7_encode recNanAmount).2.2.2.2.2.1 rfl, by decide⟩

/-- C8: starting against a nonexistent data directory, ensureCsv creates
the directory and a header-only data file and loadAll returns the empty
sequence; in general loadAll discards the header line and all blank lines
and decodes each remaining line of the file in order. -/
theorem C8_bootstrap :
    ensureCsv { dirExists := false, file := none } =
      { dirExists := true, file := some csvHeader } ∧
    (startServer { dirExists := false, file := none }).transactions = [] ∧
    (∀ raw : Str,
      loadAllRaw raw =
        (((splitOnChar '\n' (trim raw)).drop 1).filter
            (fun l => !l.isEmpty)).map parseCsvLine) ∧
    (∀ lines : List Str, (∀ l ∈ lines, lineWF l) → lines.getLastD ['x'] ≠ [] →
      loadAllRaw (mkRaw lines) =
        (lines.filter (fun l => !l.isEmpty)).map parseCsvLine) :=
  ⟨by decide, by decide, fun raw => rfl, loadAllRaw_mkRaw⟩

/-- Three well-formed data lines with a blank line between them. -/
def linesBlank : List Str :=
  ["1,2025,Food,Shop,1,ok".toList, [], "2,2026,Rent,,2.5,".toList]

theorem C8_bootstrap_witness :
    (∀ l ∈ linesBlank, lineWF l) ∧ linesBlank.getLastD ['x'] ≠ [] ∧
    loadAllRaw (mkRaw linesBlank) =
      (linesBlank.filter (fun l => !l.isEmpty)).map parseCsvLine :=
  ⟨by decide, by decide, (C8_bootstrap.2.2.2) linesBlank (by decide) (by decide)⟩
